import Mathlib

/-!
Verification of the exposure reconciliation and sequence-detection engine of
the `almanac` repository (`almanac/apogee.py`, `almanac/data_models/*.py`),
as a shallow embedding in Lean.

Modelling conventions:
* Python dictionaries keyed by exposure number are association lists
  (`List (Nat × _)`); `dict.pop` removes the entry with the given key
  (keys of a Python dict are unique, so removing every entry with that key
  is the same operation).
* Python's stable sorts (`sorted`, astropy's stable `group_by` argsort) are
  modelled with `List.insertionSort`, which is stable.
* Fallible code returns `Option`/`Except`; `none`/`.error` models a raised
  exception.
* NumPy/astropy row tables are lists of structures carrying the fields
  the algorithms read.
-/

set_option maxHeartbeats 1000000

/-! ### `mjd_to_exposure_prefix` / `exposure_prefix_to_mjd` (`almanac/apogee.py`) -/

/-- Embedding of `mjd_to_exposure_prefix` from `almanac/apogee.py`:
`return (mjd - 55_562) * 10_000`. -/
def mjd_to_exposure_prefix (mjd : Int) : Int :=
  (mjd - 55562) * 10000

/-- Embedding of `exposure_prefix_to_mjd` from `almanac/apogee.py`:
`return (prefix // 10_000) + 55_562`.  Python `//` is floor division,
modelled with `Int.fdiv`. -/
def exposure_prefix_to_mjd (p : Int) : Int :=
  p.fdiv 10000 + 55562

/-! ### `Exposure.fps` (`almanac/data_models/exposure.py`) -/

inductive Observatory where
  | apo
  | lco
deriving DecidableEq, Repr

/-- The threshold `start = dict(apo=59423, lco=59810)[self.observatory]` inside
`Exposure.fps`. -/
def fpsStartMJD : Observatory → Int
  | .apo => 59423
  | .lco => 59810

/-- The part of an `Exposure` that the `fps` computed field reads. -/
structure ExposureSite where
  observatory : Observatory
  mjd : Int
deriving DecidableEq, Repr

/-- The `fps` computed field of `Exposure`: `return self.mjd >= start`. -/
def ExposureSite.fps (e : ExposureSite) : Bool :=
  decide (fpsStartMJD e.observatory ≤ e.mjd)

/-! ### Header-value validators (`almanac/data_models/exposure.py`)

Python string primitives (`str.strip()`, `str.upper()`, `int(str)`) are
modelled by structurally recursive functions on the character list of the
string, so that concrete runs reduce inside the kernel. -/

/-- Python `str.strip()`: drop leading and trailing whitespace. -/
def pyStrip (s : String) : String :=
  ⟨((s.data.dropWhile Char.isWhitespace).reverse.dropWhile
      Char.isWhitespace).reverse⟩

/-- Python `str.upper()` (ASCII; header values are ASCII). -/
def pyUpper (s : String) : String :=
  ⟨s.data.map Char.toUpper⟩

/-- The value of a non-empty all-digit character list, `none` otherwise. -/
def digitsVal? (l : List Char) : Option Nat :=
  if l ≠ [] ∧ l.all Char.isDigit then
    some (l.foldl (fun acc c => acc * 10 + (c.toNat - 48)) 0)
  else none

/-- Python `int(s)` applied to a string: optional surrounding whitespace,
an optional sign, then at least one decimal digit; any other string raises
`ValueError`, modelled as `none`. -/
def pyStrToInt? (s : String) : Option Int :=
  match (pyStrip s).data with
  | '-' :: rest => (digitsVal? rest).map fun n => -(n : Int)
  | '+' :: rest => (digitsVal? rest).map fun n => (n : Int)
  | rest => (digitsVal? rest).map fun n => (n : Int)

/-- Embedding of `empty_string_to_int` from `almanac/data_models/exposure.py`:
```
if isinstance(v, str) and v.strip() == '': return default
elif v is None: return default
return int(v)
```
A raw header value is either absent (`none`, Python `None`) or a string.
A `none` result models the `ValueError` raised by `int(v)` on a non-empty,
non-numeric string. -/
def empty_string_to_int (v : Option String) (default : Int) : Option Int :=
  match v with
  | none => some default
  | some s => if pyStrip s = "" then some default else pyStrToInt? s

/-- The `validate_identifiers` field validator (for `map_id`, `plate_id`,
`field_id`, `design_id`, `config_id`): `return empty_string_to_int(v, -1)`. -/
def validate_identifiers (v : Option String) : Option Int :=
  empty_string_to_int v (-1)

/-- The `validate_cart_id` field validator:
```
if isinstance(v, str) and v.strip().upper() == 'FPS': return 0
return empty_string_to_int(v, -1)
```
-/
def validate_cart_id (v : Option String) : Option Int :=
  match v with
  | some s =>
    if pyUpper (pyStrip s) = "FPS" then some 0
    else empty_string_to_int (some s) (-1)
  | none => empty_string_to_int none (-1)

/-- The `validate_floats` field validator (for `seeing`, `focus`,
`collpist`, `colpitch`, `dithered_pixels`):
`try: return float(v) except: return float('NaN')`.
Float parsing itself is external (parameter `parseFloat`); the validator
never raises: an unparsable or absent value becomes NaN (`none`). -/
def validate_floats (parseFloat : String → Option ℚ) (v : Option String) :
    Option ℚ :=
  v.bind parseFloat

/-- The `validate_lamps` field validator (for `lamp_quartz`, `lamp_thar`,
`lamp_une`): `return {'F': 0, 'T': 1}.get(str(v).strip().upper(), -1)`.
Never raises; anything other than T/F becomes the sentinel `-1`
(in particular `str(None) = "None"` does). -/
def validate_lamps (v : Option String) : Int :=
  match v with
  | none => -1
  | some s =>
    if pyUpper (pyStrip s) = "T" then 1
    else if pyUpper (pyStrip s) = "F" then 0
    else -1

/-- The raw header values feeding the validators above. -/
structure RawHeaders where
  fieldid : Option String
  designid : Option String
  configid : Option String
  plateid : Option String
  mapid : Option String
  cartid : Option String
  seeing : Option String
  focus : Option String
  collpist : Option String
  colpitch : Option String
  dithpix : Option String
  lampqrtz : Option String
  lampthar : Option String
  lampune : Option String

/-- The validated fields of an `Exposure` produced from raw header values. -/
structure ExposureFields where
  field_id : Int
  design_id : Int
  config_id : Int
  plate_id : Int
  map_id : Int
  cart_id : Int
  seeing : Option ℚ
  focus : Option ℚ
  collpist : Option ℚ
  colpitch : Option ℚ
  dithered_pixels : Option ℚ
  lamp_quartz : Int
  lamp_thar : Int
  lamp_une : Int
deriving DecidableEq

/-- Pydantic construction of an `Exposure` from raw header values: every
field validator runs; if any of them raises, construction aborts with a
`ValidationError` (modelled as `none`). -/
def buildExposureFields (parseFloat : String → Option ℚ) (h : RawHeaders) :
    Option ExposureFields := do
  let f ← validate_identifiers h.fieldid
  let d ← validate_identifiers h.designid
  let c ← validate_identifiers h.configid
  let p ← validate_identifiers h.plateid
  let m ← validate_identifiers h.mapid
  let cart ← validate_cart_id h.cartid
  pure
    { field_id := f, design_id := d, config_id := c, plate_id := p,
      map_id := m, cart_id := cart,
      seeing := validate_floats parseFloat h.seeing,
      focus := validate_floats parseFloat h.focus,
      collpist := validate_floats parseFloat h.collpist,
      colpitch := validate_floats parseFloat h.colpitch,
      dithered_pixels := validate_floats parseFloat h.dithpix,
      lamp_quartz := validate_lamps h.lampqrtz,
      lamp_thar := validate_lamps h.lampthar,
      lamp_une := validate_lamps h.lampune }

/-! ### `match_planned_to_plugged` (`almanac/data_models/utils.py`) -/

/-- A row of the planned-holes table (`plateHoles` Yanny file) with the
columns the matcher reads. -/
structure PlannedHole where
  holetype : String
  target_ra : ℚ
  target_dec : ℚ
deriving DecidableEq, Repr

/-- A row of the plugged-holes table (`plPlugMapM` Yanny file) with the
columns the matcher reads. -/
structure PluggedHole where
  spectrographId : Int
  ra : ℚ
  dec : ℚ
deriving DecidableEq, Repr

/-- The planned-holes filter:
`(holetype == "APOGEE") | (holetype == "APOGEE_SHARED") | (holetype == "APOGEE_SOUTH")`. -/
def plannedFilter (planned : List PlannedHole) : List PlannedHole :=
  planned.filter fun p =>
    p.holetype == "APOGEE" || p.holetype == "APOGEE_SHARED" ||
      p.holetype == "APOGEE_SOUTH"

/-- The plugged-holes filter: `plugged["spectrographId"] == 2`. -/
def pluggedFilter (plugged : List PluggedHole) : List PluggedHole :=
  plugged.filter fun p => p.spectrographId == 2

/-- The test `(ra_dist < tol) & (dec_dist < tol)` for one (planned, plugged) pair;
`cdist` on one-dimensional points is the absolute difference. -/
def meetsTolerance (tol : ℚ) (p : PlannedHole) (q : PluggedHole) : Bool :=
  decide (|p.target_ra - q.ra| < tol) && decide (|p.target_dec - q.dec| < tol)

/-- The count `n_matches_to_plugged_holes = np.sum(meets_tolerance, axis=0)`: the
number of planned holes within tolerance of the plugged hole `q`. -/
def nMatchesToPlugged (planned : List PlannedHole) (tol : ℚ)
    (q : PluggedHole) : Nat :=
  (planned.filter fun p => meetsTolerance tol p q).length

/-- The squared distance `ra_dist**2 + dec_dist**2`; the source takes `np.sqrt` of this before
`np.argmin`, but `argmin` (including its first-occurrence tie-break) is
invariant under the strictly monotone square root, so we minimise the
squared distance. -/
def distSq (p : PlannedHole) (q : PluggedHole) : ℚ :=
  (p.target_ra - q.ra) ^ 2 + (p.target_dec - q.dec) ^ 2

/-- Model of `np.argmin`: the first element minimising `f`, as a value. -/
def argminBy (f : α → ℚ) : List α → Option α
  | [] => none
  | x :: xs =>
    match argminBy f xs with
    | none => some x
    | some y => if f x ≤ f y then some x else some y

/-- Embedding of `match_planned_to_plugged` from `almanac/data_models/utils.py`.
After filtering both tables it raises (`.error`) as soon as any plugged
hole matches more than one planned hole within tolerance; otherwise it
pairs every uniquely-matched plugged hole with its nearest planned hole
(the `hstack` of `plugged[has_match]` with `planned[planned_hole_indices]`). -/
def match_planned_to_plugged (planned : List PlannedHole)
    (plugged : List PluggedHole) (tol : ℚ) :
    Except String (List (PluggedHole × PlannedHole)) :=
  let plannedF := plannedFilter planned
  let pluggedF := pluggedFilter plugged
  if pluggedF.any (fun q => decide (1 < nMatchesToPlugged plannedF tol q)) then
    Except.error "Cannot uniquely match plugged holes to planned holes!"
  else
    Except.ok <|
      (pluggedF.filter fun q => nMatchesToPlugged plannedF tol q == 1).filterMap
        fun q => (argminBy (fun p => distSq p q) plannedF).map fun p => (q, p)

/-! ### `organize_exposures` (`almanac/apogee.py`) -/

/-- An on-disk exposure record (the dictionaries produced by `_get_meta`),
restricted to the fields `organize_exposures` and its callers read.  An
on-disk record carries every key of `missing_row_template`, so the merge
`{**missing_row_template, **exposure}` is the record itself. -/
structure ExposureRow where
  exposure : Nat
  observatory : String
  mjd : Nat
  imagetyp : String
  exptype : String
  configid : String
  obscmt : String
  path_exists : Bool
deriving DecidableEq, Repr

/-- An expected-exposure record from `get_expected_exposure_metadata`
(keys: `exposure`, `configid`, `exptype`, `imagetyp`, `obscmt`,
plus the `observatory`/`mjd` defaults). -/
structure ExpectedRow where
  exposure : Nat
  observatory : String
  mjd : Nat
  configid : String
  exptype : String
  imagetyp : String
  obscmt : String
deriving DecidableEq, Repr

/-- The merge `{**missing_row_template, **expected_exposures.pop(n)}`: the expected
record overrides the template wherever it has a key; the template
contributes `path_exists=False` (its `imagetyp="Missing"` etc. are
overridden by the expected record's own keys). -/
def mergeExpectedOverTemplate (e : ExpectedRow) : ExposureRow :=
  { exposure := e.exposure, observatory := e.observatory, mjd := e.mjd,
    imagetyp := e.imagetyp, exptype := e.exptype, configid := e.configid,
    obscmt := e.obscmt, path_exists := false }

/-- The row `dict(exposure=n, observatory=observatory, mjd=mjd, **missing_row_template)`:
the pure-template placeholder for an exposure number with no expected
record. -/
def missingTemplateRow (n : Nat) (obs : String) (mjd : Nat) : ExposureRow :=
  { exposure := n, observatory := obs, mjd := mjd,
    imagetyp := "Missing", exptype := "MISSING", configid := "-1",
    obscmt := "", path_exists := false }

/-- The message `f"Missing exposure {n} from {observatory} on MJD {mjd} (exptype=...;
configid=...)! {context}"`. -/
def missingExposureMessage (n : Nat) (obs : String) (mjd : Nat)
    (exptype configid context : String) : String :=
  "Missing exposure " ++ toString n ++ " from " ++ obs ++ " on MJD " ++
    toString mjd ++ " (exptype=" ++ exptype ++ "; configid=" ++ configid ++
    ")! " ++ context

/-- The context `f"Exposure record exists in {observatory} operations database."` -/
def contextExpected (obs : String) : String :=
  "Exposure record exists in " ++ obs ++ " operations database."

/-- The context `f"No exposure record in {observatory} operations database because it is
before MJD cutoff ({mjd} < {cutoff})."` -/
def contextBeforeCutoff (obs : String) (mjd cutoff : Nat) : String :=
  "No exposure record in " ++ obs ++
    " operations database because it is before MJD cutoff (" ++
    toString mjd ++ " < " ++ toString cutoff ++ ")."

/-- The context `f"No exposure record in {observatory} operations database, but it
should ({mjd} > {cutoff})!"` -/
def contextAfterCutoff (obs : String) (mjd cutoff : Nat) : String :=
  "No exposure record in " ++ obs ++
    " operations database, but it should (" ++ toString mjd ++ " > " ++
    toString cutoff ++ ")!"

/-- The `expected_exposures` dictionary, as an association list. -/
abbrev ExpectedMap := List (Nat × ExpectedRow)

/-- Python `n in expected_exposures` / `expected_exposures[n]`. -/
def lookupExpected (n : Nat) (m : ExpectedMap) : Option ExpectedRow :=
  (m.find? fun p => p.1 == n).map (·.2)

/-- Python `expected_exposures.pop(n)`.  Keys of a Python dict are unique,
so removing every entry with key `n` models the pop. -/
def popExpected (n : Nat) (m : ExpectedMap) : ExpectedMap :=
  m.filter fun p => p.1 != n

/-- The inner `prepare_missing_exposure(n, observatory, mjd)` closure of
`organize_exposures`.  Returns the synthesized row, its diagnostic message
and the updated `expected_exposures` dictionary.  In the not-expected
branch Python computes `observatory or missing["observatory"]` and
`mjd or missing["mjd"]`, which are the template row's own fields again
(the parameters were just stored into it), so the message reads them from
`missing`. -/
def prepare_missing_exposure (cutoff : Nat) (obs? : Option String)
    (mjd? : Option Nat) (expected : ExpectedMap) (n : Nat) :
    ExposureRow × String × ExpectedMap :=
  match lookupExpected n expected with
  | some e =>
    let missing := mergeExpectedOverTemplate e
    let obs :=
      match obs? with
      | some s => if s = "" then missing.observatory else s
      | none => missing.observatory
    let mjd :=
      match mjd? with
      | some m => if m = 0 then missing.mjd else m
      | none => missing.mjd
    (missing,
      missingExposureMessage n obs mjd missing.exptype missing.configid
        (contextExpected obs),
      popExpected n expected)
  | none =>
    let missing := missingTemplateRow n (obs?.getD "") (mjd?.getD 0)
    let context :=
      if missing.mjd < cutoff then
        contextBeforeCutoff missing.observatory missing.mjd cutoff
      else contextAfterCutoff missing.observatory missing.mjd cutoff
    (missing,
      missingExposureMessage n missing.observatory missing.mjd
        missing.exptype missing.configid context,
      expected)

/-- The gap-filling loop
`for n in range(last_exposure_id + 1, exposure["exposure"])`, run over an
explicit list of gap numbers. -/
def fill_missing_range (cutoff : Nat) (obs : String) (mjd : Nat) :
    ExpectedMap → List Nat → List ExposureRow × List String × ExpectedMap
  | expected, [] => ([], [], expected)
  | expected, n :: ns =>
    let pm := prepare_missing_exposure cutoff (some obs) (some mjd) expected n
    let rest := fill_missing_range cutoff obs mjd pm.2.2 ns
    (pm.1 :: rest.1, pm.2.1 :: rest.2.1, rest.2.2)

/-- The main loop of `organize_exposures`, walking the exposure-sorted
on-disk list.  `last` is `last_exposure_id`; `cutoffOf` is
`int(getattr(config.sdssdb_exposure_min_mjd, observatory))`.  Appending a
real exposure appends `{**missing_row_template, **exposure}`, which is the
record itself (on-disk records carry every template key). -/
def organizeWalk (cutoffOf : String → Nat) :
    Nat → ExpectedMap → List ExposureRow →
      List ExposureRow × List String × ExpectedMap
  | _, expected, [] => ([], [], expected)
  | last, expected, x :: xs =>
    let cutoff := cutoffOf x.observatory
    let gap := List.range' (last + 1) (x.exposure - (last + 1))
    let filled := fill_missing_range cutoff x.observatory x.mjd expected gap
    let rest :=
      organizeWalk cutoffOf x.exposure (popExpected x.exposure filled.2.2) xs
    (filled.1 ++ x :: rest.1, filled.2.1 ++ rest.2.1, rest.2.2)

/-- The trailing loop `for n in sorted(expected_exposures.keys())`.  Every
`n` visited is a key of the dictionary, so `prepare_missing_exposure`
always takes its `is_expected` branch and the stale `cutoff` variable of
the source is never read; we pass 0 for it. -/
def organizeTailGo : ExpectedMap → List Nat → List ExposureRow × List String
  | _, [] => ([], [])
  | expected, n :: ns =>
    let pm := prepare_missing_exposure 0 none none expected n
    let rest := organizeTailGo pm.2.2 ns
    (pm.1 :: rest.1, pm.2.1 :: rest.2)

/-- The cursor `int(str(last_exposure_id)[:4] + "0000")`: the forced baseline
when `require_exposures_start_at_1` is true. -/
def forceBaseline (n : Nat) : Nat :=
  (digitsVal? ((toString n).data.take 4 ++ "0000".data)).getD 0

/-- Exposure-number ordering on rows (the sort key
`lambda x: x["exposure"]`). -/
def rowLe (a b : ExposureRow) : Prop := a.exposure ≤ b.exposure

instance : DecidableRel rowLe := fun a b =>
  inferInstanceAs (Decidable (a.exposure ≤ b.exposure))

/-- Embedding of `organize_exposures` from `almanac/apogee.py` (with empty `**kwargs`).
Returns the reconciled, exposure-sorted row list together with the
diagnostic messages for every synthesized placeholder. -/
def organize_exposures (cutoffOf : String → Nat)
    (exposures : List ExposureRow) (expected : ExpectedMap)
    (require_exposures_start_at_1 : Bool) :
    List ExposureRow × List String :=
  let sorted := exposures.insertionSort rowLe
  let start : Nat :=
    match sorted with
    | [] => 0
    | x :: _ =>
      if require_exposures_start_at_1 then forceBaseline x.exposure
      else x.exposure
  let walked := organizeWalk cutoffOf start expected sorted
  let tailed :=
    organizeTailGo walked.2.2
      ((walked.2.2.map Prod.fst).insertionSort (· ≤ ·))
  ((walked.1 ++ tailed.1).insertionSort rowLe, walked.2.1 ++ tailed.2)

/-! ### `get_sequence_exposure_numbers` (`almanac/apogee.py`) -/

/-- A row of the reconciled exposure table, restricted to the columns
`get_sequence_exposure_numbers` and its callers read. -/
structure TimelineRow where
  exposure : Nat
  imagetyp : String
  path_exists : Bool
  fieldid : String
  plateid : String
  configid : String
  dithpix : String
deriving DecidableEq, Repr

/-- Exposure-number ordering on timeline rows (`exposures_.sort(("exposure",))`). -/
def seqLe (a b : TimelineRow) : Prop := a.exposure ≤ b.exposure

instance : DecidableRel seqLe := fun a b =>
  inferInstanceAs (Decidable (a.exposure ≤ b.exposure))

/-- Ordering by the grouping-key tuple (the argsort performed by astropy's
`group_by(keys)`); `keyOf` extracts the tuple of grouping columns. -/
def keyLe {K : Type} [LinearOrder K] (keyOf : TimelineRow → K)
    (a b : TimelineRow) : Prop :=
  keyOf a ≤ keyOf b

instance {K : Type} [LinearOrder K] (keyOf : TimelineRow → K) :
    DecidableRel (keyLe keyOf) := fun a b =>
  inferInstanceAs (Decidable (keyOf a ≤ keyOf b))

/-- The row mask: `mask = exposures["imagetyp"] == imagetyp`, and if
`require_path_exists`, `mask *= exposures["path_exists"]`. -/
def seqFilter (exposures : List TimelineRow) (imagetyp : String)
    (require_path_exists : Bool) : List TimelineRow :=
  exposures.filter fun r =>
    r.imagetyp == imagetyp && (!require_path_exists || r.path_exists)

/-- Split a list into maximal runs of adjacent elements satisfying `p`
(the boundaries computed from `exposures_.groups.indices` and from
`np.where(np.diff(...) > 1)`). -/
def chunkBy (p : α → α → Bool) : List α → List (List α)
  | [] => []
  | [x] => [[x]]
  | x :: y :: xs =>
    match chunkBy p (y :: xs) with
    | [] => [[x]]
    | c :: cs => if p x y then (x :: c) :: cs else [x] :: c :: cs

/-- The value `exposures_["exposure"][...][0]` of a chunk. -/
def headExposure : List TimelineRow → Nat
  | [] => 0
  | x :: _ => x.exposure

/-- The value `exposures_["exposure"][...][-1]` of a chunk. -/
def lastExposure (c : List TimelineRow) : Nat :=
  match c.getLast? with
  | none => 0
  | some x => x.exposure

/-- Embedding of `get_sequence_exposure_numbers` from `almanac/apogee.py`:
filter to the requested image type (and, if `require_path_exists`, to rows
whose file exists); return `[]` if nothing is left; sort by exposure
number; `group_by(keys)` — a stable re-sort by the grouping key followed
by grouping adjacent equal keys; within each group, if
`require_contiguous`, split further wherever consecutive exposure numbers
differ by more than one; emit each run's first and last exposure number. -/
def get_sequence_exposure_numbers {K : Type} [LinearOrder K]
    (keyOf : TimelineRow → K) (exposures : List TimelineRow)
    (imagetyp : String) (require_contiguous require_path_exists : Bool) :
    List (Nat × Nat) :=
  let filtered := seqFilter exposures imagetyp require_path_exists
  if filtered.isEmpty then []
  else
    let sorted := filtered.insertionSort seqLe
    let keySorted := sorted.insertionSort (keyLe keyOf)
    let groups := chunkBy (fun a b => keyOf a == keyOf b) keySorted
    groups.flatMap fun grp =>
      if require_contiguous then
        (chunkBy (fun a b => decide (b.exposure - a.exposure ≤ 1)) grp).map
          fun c => (headExposure c, lastExposure c)
      else
        [(headExposure grp, lastExposure grp)]

/-- The exposure number of the last row of a (sorted) on-disk list. -/
def lastRowExposure (xs : List ExposureRow) : Nat :=
  match xs.getLast? with
  | none => 0
  | some x => x.exposure

instance : IsTotal ExposureRow rowLe :=
  ⟨fun a b => Nat.le_total a.exposure b.exposure⟩

instance : IsTrans ExposureRow rowLe :=
  ⟨fun _ _ _ => Nat.le_trans⟩

instance : IsTotal TimelineRow seqLe :=
  ⟨fun a b => Nat.le_total a.exposure b.exposure⟩

instance : IsTrans TimelineRow seqLe :=
  ⟨fun _ _ _ => Nat.le_trans⟩

instance {K : Type} [LinearOrder K] (keyOf : TimelineRow → K) :
    IsTotal TimelineRow (keyLe keyOf) :=
  ⟨fun a b => le_total (keyOf a) (keyOf b)⟩

instance {K : Type} [LinearOrder K] (keyOf : TimelineRow → K) :
    IsTrans TimelineRow (keyLe keyOf) :=
  ⟨fun _ _ _ h1 h2 => le_trans h1 h2⟩

/-! ### Theorems -/

/-- C9: for every integer `mjd` and every `e` with `0 ≤ e < 10000`,
`exposure_prefix_to_mjd (mjd_to_exposure_prefix mjd + e) = mjd`, so
`exposure_prefix_to_mjd` is a left inverse of `mjd_to_exposure_prefix`
and the per-night exposure-number windows of distinct nights are
disjoint. -/
theorem exposure_roundtrip (mjd e : Int) (h0 : 0 ≤ e) (h1 : e < 10000) :
    exposure_prefix_to_mjd ( mjd_to_exposure_prefix mjd + e) = mjd := by
  unfold exposure_prefix_to_mjd mjd_to_exposure_prefix
  rw [Int.fdiv_eq_ediv _ (by norm_num)]
  omega

theorem exposure_roundtrip_witness :
    (0 : Int) ≤ 3 ∧ (3 : Int) < 10000 ∧
      exposure_prefix_to_mjd ( mjd_to_exposure_prefix 59900 + 3) = 59900 :=
  ⟨by norm_num, by norm_num,
    exposure_roundtrip 59900 3 (by norm_num) (by norm_num)⟩

/-- C10: the computed `fps` flag is true exactly when `mjd ≥ 59423` at
`apo` and exactly when `mjd ≥ 59810` at `lco`. -/
theorem fps_threshold (e : ExposureSite) :
    (e.observatory = .apo → (e.fps = true ↔ 59423 ≤ e.mjd)) ∧
    (e.observatory = .lco → (e.fps = true ↔ 59810 ≤ e.mjd)) := by
  constructor <;> intro h <;> simp [ExposureSite.fps, fpsStartMJD, h]

theorem fps_threshold_witness :
    (⟨.apo, 59423⟩ : ExposureSite).observatory = .apo ∧
      ((⟨.apo, 59423⟩ : ExposureSite).fps = true ↔
        59423 ≤ (⟨.apo, 59423⟩ : ExposureSite).mjd) :=
  ⟨rfl, (fps_threshold ⟨.apo, 59423⟩).1 rfl⟩

/-- C6 counterexample: the raw header value `"abc"` for `fieldid` is an
unparsable integer identifier, yet it is not coerced to `-1`:
`empty_string_to_int` raises (`none`) and `Exposure` construction
aborts. -/
theorem identifier_validator_raises :
    empty_string_to_int (some "abc") (-1) = none ∧
      buildExposureFields (fun _ => none)
        ⟨some "abc", none, none, none, none, none, none, none, none, none,
          none, none, none, none⟩ = none := by
  exact ⟨by decide, by decide⟩

/-- C6 amended: constructing an `Exposure` coerces unparsable floats to
NaN and unparsable lamp booleans to the `-1` sentinel without raising,
and coerces *empty or absent* integer identifiers to `-1`; construction
succeeds whenever every identifier validator succeeds, but a non-empty
non-numeric identifier string raises and aborts construction (see the
counterexample). -/
theorem exposure_field_coercion :
    (∀ (parseFloat : String → Option ℚ) (h : RawHeaders),
      (validate_identifiers h.fieldid).isSome = true →
      (validate_identifiers h.designid).isSome = true →
      (validate_identifiers h.configid).isSome = true →
      (validate_identifiers h.plateid).isSome = true →
      (validate_identifiers h.mapid).isSome = true →
      (validate_cart_id h.cartid).isSome = true →
      (buildExposureFields parseFloat h).isSome = true) ∧
    (∀ (parseFloat : String → Option ℚ) (s : String),
      parseFloat s = none → validate_floats parseFloat (some s) = none) ∧
    (∀ parseFloat : String → Option ℚ, validate_floats parseFloat none = none) ∧
    (∀ v : Option String,
      (∀ s, v = some s →
        pyUpper (pyStrip s) ≠ "T" ∧ pyUpper (pyStrip s) ≠ "F") →
      validate_lamps v = -1) ∧
    (∀ d : Int, empty_string_to_int none d = some d) ∧
    (∀ (s : String) (d : Int), pyStrip s = "" →
      empty_string_to_int (some s) d = some d) := by
  refine ⟨?_, ?_, ?_, ?_, ?_, ?_⟩
  · intro parseFloat h h1 h2 h3 h4 h5 h6
    rw [Option.isSome_iff_exists] at h1 h2 h3 h4 h5 h6
    obtain ⟨a1, e1⟩ := h1
    obtain ⟨a2, e2⟩ := h2
    obtain ⟨a3, e3⟩ := h3
    obtain ⟨a4, e4⟩ := h4
    obtain ⟨a5, e5⟩ := h5
    obtain ⟨a6, e6⟩ := h6
    simp [buildExposureFields, e1, e2, e3, e4, e5, e6]
  · intro parseFloat s hs
    simp [validate_floats, hs]
  · intro parseFloat
    rfl
  · intro v hv
    match v with
    | none => rfl
    | some s =>
      obtain ⟨hT, hF⟩ := hv s rfl
      simp [validate_lamps, hT, hF]
  · intro d
    rfl
  · intro s d hs
    simp [empty_string_to_int, hs]

theorem exposure_field_coercion_witness :
    (buildExposureFields (fun _ => none)
      ⟨none, none, none, none, none, none, none, none, none, none, none,
        none, none, none⟩).isSome = true :=
  exposure_field_coercion.1 (fun _ => none)
    ⟨none, none, none, none, none, none, none, none, none, none, none,
      none, none, none⟩ rfl rfl rfl rfl rfl rfl

/-- C5: `match_planned_to_plugged` raises exactly when some plugged hole
(after the spectrograph filter) matches more than one planned hole (after
the hole-type filter) within tolerance, and in that case returns no
partial target list; otherwise it returns the matched table without
raising. -/
theorem ambiguous_match_raises (planned : List PlannedHole)
    (plugged : List PluggedHole) (tol : ℚ) :
    (match_planned_to_plugged planned plugged tol =
        Except.error "Cannot uniquely match plugged holes to planned holes!" ↔
      ∃ q ∈ pluggedFilter plugged,
        1 < nMatchesToPlugged (plannedFilter planned) tol q) ∧
    ((¬ ∃ q ∈ pluggedFilter plugged,
        1 < nMatchesToPlugged (plannedFilter planned) tol q) →
      ∃ l, match_planned_to_plugged planned plugged tol = Except.ok l) := by
  have hiff : ((pluggedFilter plugged).any
      (fun q => decide (1 < nMatchesToPlugged (plannedFilter planned) tol q))
        = true) ↔
      ∃ q ∈ pluggedFilter plugged,
        1 < nMatchesToPlugged (plannedFilter planned) tol q := by
    simp [List.any_eq_true]
  by_cases hc : ∃ q ∈ pluggedFilter plugged,
      1 < nMatchesToPlugged (plannedFilter planned) tol q
  · have hb := hiff.mpr hc
    exact ⟨by simp [match_planned_to_plugged, hb, hc],
      fun h => absurd hc h⟩
  · have hb : ((pluggedFilter plugged).any
        (fun q => decide (1 < nMatchesToPlugged (plannedFilter planned) tol q)))
          = false := by
      rw [← Bool.not_eq_true]
      exact fun h => hc (hiff.mp h)
    refine ⟨by simp [match_planned_to_plugged, hb, hc], fun _ => ?_⟩
    exact ⟨((pluggedFilter plugged).filter fun q =>
        nMatchesToPlugged (plannedFilter planned) tol q == 1).filterMap
          (fun q => (argminBy (fun p => distSq p q) (plannedFilter planned)).map
            fun p => (q, p)),
      by simp [match_planned_to_plugged, hb]⟩

theorem ambiguous_match_raises_witness :
    (¬ ∃ q ∈ pluggedFilter [⟨2, 0, 0⟩],
      1 < nMatchesToPlugged (plannedFilter [⟨"APOGEE", 0, 0⟩]) (1/2) q) ∧
    ∃ l, match_planned_to_plugged [⟨"APOGEE", 0, 0⟩] [⟨2, 0, 0⟩] (1/2) =
      Except.ok l :=
  ⟨by norm_num [pluggedFilter, plannedFilter, nMatchesToPlugged,
      meetsTolerance],
    (ambiguous_match_raises [⟨"APOGEE", 0, 0⟩] [⟨2, 0, 0⟩] (1/2)).2
      (by norm_num [pluggedFilter, plannedFilter, nMatchesToPlugged,
        meetsTolerance])⟩

/-- C8: the reconciler returns `([], [])` on empty `on_disk` and empty
`expected`, and the sequence detector returns `[]` on a timeline with no
record of the requested image type; neither raises. -/
theorem empty_input_safety :
    (∀ (cutoffOf : String → Nat) (req : Bool),
      organize_exposures cutoffOf [] [] req = ([], [])) ∧
    (∀ {K : Type} [LinearOrder K] (keyOf : TimelineRow → K)
      (tl : List TimelineRow) (it : String) (rc rp : Bool),
      (∀ r ∈ tl, r.imagetyp ≠ it) →
      get_sequence_exposure_numbers keyOf tl it rc rp = []) := by
  constructor
  · intro cutoffOf req
    rfl
  · intro K _ keyOf tl it rc rp hnone
    have hf : seqFilter tl it rp = [] := by
      rw [seqFilter, List.filter_eq_nil_iff]
      intro r hr
      simp [hnone r hr]
    simp [get_sequence_exposure_numbers, hf]

theorem empty_input_safety_witness :
    organize_exposures (fun _ => 59558) [] [] true = ([], []) ∧
      get_sequence_exposure_numbers (fun r => r.dithpix)
        [⟨1, "Object", true, "f", "p", "c", "d"⟩] "ArcLamp" true true = [] :=
  ⟨empty_input_safety.1 (fun _ => 59558) true,
    empty_input_safety.2 (fun r => r.dithpix)
      [⟨1, "Object", true, "f", "p", "c", "d"⟩] "ArcLamp" true true
      (by decide)⟩

/-- C2 counterexample: with `on_disk = []` and expected exposures 7 and 9,
`organize_exposures` emits only exposures 7 and 9 — no placeholder for
exposure 8 is synthesized, because the trailing loop over leftover
expected keys performs no gap filling. -/
theorem expected_only_night_no_gap_fill :
    ((organize_exposures (fun _ => 59558) []
        [(7, ⟨7, "apo", 59900, "c7", "Object", "Object", ""⟩),
         (9, ⟨9, "apo", 59900, "c9", "Object", "Object", ""⟩)] true).1.map
      ExposureRow.exposure) = [7, 9] ∧
    (8 : Nat) ∉ ((organize_exposures (fun _ => 59558) []
        [(7, ⟨7, "apo", 59900, "c7", "Object", "Object", ""⟩),
         (9, ⟨9, "apo", 59900, "c9", "Object", "Object", ""⟩)] true).1.map
      ExposureRow.exposure) := by
  exact ⟨by decide, by decide⟩

/-- C2 amended: for empty `on_disk` and `expected` holding exposures 7 and
9, `organize_exposures` returns exactly the two placeholders built from
the expected records merged over the missing-row template (so
`path_exists = false`), with messages noting that the exposure record
exists in the operations database; no exposure-8 placeholder is
synthesized, since gap filling only runs between on-disk exposures. -/
theorem expected_only_night (cutoffOf : String → Nat) (req : Bool)
    (e7 e9 : ExpectedRow) (h7 : e7.exposure = 7) (h9 : e9.exposure = 9) :
    organize_exposures cutoffOf [] [(7, e7), (9, e9)] req =
      ([mergeExpectedOverTemplate e7, mergeExpectedOverTemplate e9],
       [missingExposureMessage 7 e7.observatory e7.mjd e7.exptype e7.configid
          (contextExpected e7.observatory),
        missingExposureMessage 9 e9.observatory e9.mjd e9.exptype e9.configid
          (contextExpected e9.observatory)]) := by
  simp [organize_exposures, organizeWalk, organizeTailGo,
    prepare_missing_exposure, lookupExpected, popExpected,
    List.insertionSort, List.orderedInsert, rowLe, h7, h9,
    mergeExpectedOverTemplate]

theorem expected_only_night_witness :
    (⟨7, "apo", 59900, "c7", "Object", "Object", ""⟩ : ExpectedRow).exposure
        = 7 ∧
    (⟨9, "apo", 59900, "c9", "Object", "Object", ""⟩ : ExpectedRow).exposure
        = 9 ∧
    organize_exposures (fun _ => 59558) []
        [(7, ⟨7, "apo", 59900, "c7", "Object", "Object", ""⟩),
         (9, ⟨9, "apo", 59900, "c9", "Object", "Object", ""⟩)] true =
      ([mergeExpectedOverTemplate ⟨7, "apo", 59900, "c7", "Object", "Object", ""⟩,
        mergeExpectedOverTemplate ⟨9, "apo", 59900, "c9", "Object", "Object", ""⟩],
       [missingExposureMessage 7 "apo" 59900 "Object" "c7"
          (contextExpected "apo"),
        missingExposureMessage 9 "apo" 59900 "Object" "c9"
          (contextExpected "apo")]) :=
  ⟨rfl, rfl,
    expected_only_night (fun _ => 59558) true
      ⟨7, "apo", 59900, "c7", "Object", "Object", ""⟩
      ⟨9, "apo", 59900, "c9", "Object", "Object", ""⟩ rfl rfl⟩

/-- C1 counterexample: gap-filling completeness fails for arbitrary
`expected` mappings.  With one on-disk exposure 10000005 and an expected
record keyed 10000009 (beyond the largest on-disk number), the output
contains 10000009, so its exposure numbers are not the contiguous range
from the forced baseline 10000000 through nk = 10000005. -/
theorem gap_filling_leftover_expected :
    ((organize_exposures (fun _ => 59558)
        [⟨10000005, "apo", 59900, "Object", "OBJECT", "c", "", true⟩]
        [(10000009, ⟨10000009, "apo", 59900, "c9", "Object", "Object", ""⟩)]
        true).1.map ExposureRow.exposure) =
      [10000001, 10000002, 10000003, 10000004, 10000005, 10000009] ∧
    ((organize_exposures (fun _ => 59558)
        [⟨10000005, "apo", 59900, "Object", "OBJECT", "c", "", true⟩]
        [(10000009, ⟨10000009, "apo", 59900, "c9", "Object", "Object", ""⟩)]
        true).1.map ExposureRow.exposure) ≠
      List.range' (forceBaseline 10000005 + 1)
        (10000005 - forceBaseline 10000005) := by
  exact ⟨by decide, by decide⟩

/-- If a key is found in the expected map and every entry's record carries
its own key as exposure number, the found record's exposure number is that
key. -/
theorem lookupExpected_exposure {expected : ExpectedMap} {n : Nat}
    {e : ExpectedRow} (hkv : ∀ p ∈ expected, p.2.exposure = p.1)
    (h : lookupExpected n expected = some e) : e.exposure = n := by
  unfold lookupExpected at h
  cases hf : expected.find? (fun p => p.1 == n) with
  | none => rw [hf] at h; simp at h
  | some pr =>
    rw [hf] at h
    simp only [Option.map_some'] at h
    have h1 : (pr.1 == n) = true := by simpa using List.find?_some hf
    have h2 : pr ∈ expected := List.mem_of_find?_eq_some hf
    rw [← Option.some.inj h, hkv pr h2]
    simpa using h1

/-- The row synthesized by `prepare_missing_exposure` for gap number `n`
carries exposure number `n` (given key-consistent expected records). -/
theorem prepare_missing_exposure_fst {cutoff : Nat} {obs? : Option String}
    {mjd? : Option Nat} {expected : ExpectedMap} {n : Nat}
    (hkv : ∀ p ∈ expected, p.2.exposure = p.1) :
    (prepare_missing_exposure cutoff obs? mjd? expected n).1.exposure = n := by
  unfold prepare_missing_exposure
  cases hf : lookupExpected n expected with
  | none => simp [missingTemplateRow]
  | some e =>
    simp only [mergeExpectedOverTemplate]
    exact lookupExpected_exposure hkv hf

/-- The function `prepare_missing_exposure` leaves exactly the entries whose key is not
`n` (when `n` is not a key, the pop is a no-op). -/
theorem prepare_missing_exposure_snd {cutoff : Nat} {obs? : Option String}
    {mjd? : Option Nat} {expected : ExpectedMap} {n : Nat} :
    (prepare_missing_exposure cutoff obs? mjd? expected n).2.2 =
      popExpected n expected := by
  unfold prepare_missing_exposure
  cases hf : lookupExpected n expected with
  | some e => simp
  | none =>
    simp only
    unfold popExpected
    symm
    rw [List.filter_eq_self]
    intro p hp
    unfold lookupExpected at hf
    rw [Option.map_eq_none', List.find?_eq_none] at hf
    simpa using hf p hp

/-- The loop `fill_missing_range` emits one row per gap number, in order, and
leaves exactly the expected entries whose key is outside the gap list. -/
theorem fill_missing_range_spec (cutoff : Nat) (obs : String) (mjd : Nat) :
    ∀ (ns : List Nat) (expected : ExpectedMap),
      (∀ p ∈ expected, p.2.exposure = p.1) →
      ((fill_missing_range cutoff obs mjd expected ns).1.map
          ExposureRow.exposure = ns) ∧
      ((fill_missing_range cutoff obs mjd expected ns).2.2 =
        expected.filter fun p => decide (p.1 ∉ ns)) := by
  intro ns
  induction ns with
  | nil =>
    intro expected hkv
    refine ⟨by simp [fill_missing_range], ?_⟩
    simp only [fill_missing_range]
    symm
    rw [List.filter_eq_self]
    intro p _
    simp
  | cons n ns ih =>
    intro expected hkv
    have hkv' : ∀ p ∈ popExpected n expected, p.2.exposure = p.1 :=
      fun p hp => hkv p (List.mem_of_mem_filter hp)
    obtain ⟨ih1, ih2⟩ := ih (popExpected n expected) hkv'
    constructor
    · simp only [fill_missing_range, List.map_cons,
        prepare_missing_exposure_snd, ih1,
        prepare_missing_exposure_fst hkv]
    · rw [show (fill_missing_range cutoff obs mjd expected (n :: ns)).2.2 =
            (fill_missing_range cutoff obs mjd (popExpected n expected)
              ns).2.2 from by
          simp only [fill_missing_range, prepare_missing_exposure_snd],
        ih2]
      unfold popExpected
      rw [List.filter_filter]
      apply List.filter_congr
      intro p _
      by_cases h : p.1 = n <;> by_cases h2 : p.1 ∈ ns <;> simp [h, h2]

theorem lastRowExposure_cons_cons (x y : ExposureRow)
    (xs : List ExposureRow) :
    lastRowExposure (x :: y :: xs) = lastRowExposure (y :: xs) := by
  simp [lastRowExposure]

theorem lastRowExposure_mem (xs : List ExposureRow) (h : xs ≠ []) :
    ∃ z ∈ xs, z.exposure = lastRowExposure xs := by
  cases hx : xs.getLast? with
  | none => exact absurd (List.getLast?_eq_none_iff.mp hx) h
  | some z =>
    exact ⟨z, List.mem_of_getLast?_eq_some hx, by simp [lastRowExposure, hx]⟩

theorem organizeWalk_nil (cutoffOf : String → Nat) (last : Nat)
    (expected : ExpectedMap) :
    organizeWalk cutoffOf last expected [] = ([], [], expected) := rfl

/-- One-step unfolding of `organizeWalk` on a cons cell. -/
theorem organizeWalk_cons (cutoffOf : String → Nat) (last : Nat)
    (expected : ExpectedMap) (x : ExposureRow) (xs : List ExposureRow) :
    organizeWalk cutoffOf last expected (x :: xs) =
      ((fill_missing_range (cutoffOf x.observatory) x.observatory x.mjd
            expected (List.range' (last + 1) (x.exposure - (last + 1)))).1 ++
          x :: (organizeWalk cutoffOf x.exposure
            (popExpected x.exposure
              (fill_missing_range (cutoffOf x.observatory) x.observatory
                x.mjd expected
                (List.range' (last + 1) (x.exposure - (last + 1)))).2.2)
            xs).1,
        (fill_missing_range (cutoffOf x.observatory) x.observatory x.mjd
            expected (List.range' (last + 1) (x.exposure - (last + 1)))).2.1 ++
          (organizeWalk cutoffOf x.exposure
            (popExpected x.exposure
              (fill_missing_range (cutoffOf x.observatory) x.observatory
                x.mjd expected
                (List.range' (last + 1) (x.exposure - (last + 1)))).2.2)
            xs).2.1,
        (organizeWalk cutoffOf x.exposure
          (popExpected x.exposure
            (fill_missing_range (cutoffOf x.observatory) x.observatory x.mjd
              expected
              (List.range' (last + 1) (x.exposure - (last + 1)))).2.2)
          xs).2.2) := rfl

/-- The main-loop invariant of `organize_exposures`: walking a strictly
ascending on-disk list whose exposures all exceed the cursor, with a
key-consistent expected map whose keys all lie in
`(cursor, last exposure]`, produces exactly the contiguous exposure
numbers `cursor+1 .. last exposure` and consumes the whole expected
map. -/
theorem organizeWalk_spec (cutoffOf : String → Nat) :
    ∀ (xs : List ExposureRow) (expected : ExpectedMap) (last : Nat),
      xs ≠ [] →
      xs.Pairwise (fun a b => a.exposure < b.exposure) →
      (∀ r ∈ xs, last < r.exposure) →
      (∀ p ∈ expected, p.2.exposure = p.1) →
      (∀ p ∈ expected, last < p.1 ∧ p.1 ≤ lastRowExposure xs) →
      ((organizeWalk cutoffOf last expected xs).1.map ExposureRow.exposure =
        List.range' (last + 1) (lastRowExposure xs - last)) ∧
      (organizeWalk cutoffOf last expected xs).2.2 = [] := by
  intro xs
  induction xs with
  | nil => intro expected last hne; exact absurd rfl hne
  | cons x xs ih =>
    intro expected last _ hpw hlb hkv hkeys
    have hlx : last < x.exposure := hlb x (List.mem_cons_self x xs)
    obtain ⟨hg1, hg2⟩ :=
      fill_missing_range_spec (cutoffOf x.observatory) x.observatory x.mjd
        (List.range' (last + 1) (x.exposure - (last + 1))) expected hkv
    have hE1mem : ∀ p, p ∈ popExpected x.exposure
        (fill_missing_range (cutoffOf x.observatory) x.observatory x.mjd
          expected (List.range' (last + 1) (x.exposure - (last + 1)))).2.2 →
        p ∈ expected ∧ x.exposure < p.1 := by
      intro p hp
      unfold popExpected at hp
      have hp1 : p.1 ≠ x.exposure := by
        have := List.of_mem_filter hp
        simpa using this
      have hp2 := List.mem_of_mem_filter hp
      rw [hg2] at hp2
      have hp3 : p.1 < last + 1 ∨
          last + 1 + (x.exposure - (last + 1)) ≤ p.1 := by
        simpa using List.of_mem_filter hp2
      have hp4 := List.mem_of_mem_filter hp2
      have hlo := (hkeys p hp4).1
      exact ⟨hp4, by omega⟩
    cases xs with
    | nil =>
      rw [organizeWalk_cons]
      constructor
      · simp only [organizeWalk_nil, List.map_append, hg1, List.map_cons,
          List.map_nil]
        have hc : lastRowExposure [x] - last =
            (x.exposure - (last + 1)) + 1 := by
          simp only [lastRowExposure, List.getLast?_singleton]
          omega
        rw [hc, List.range'_1_concat]
        congr 2
        omega
      · rw [List.eq_nil_iff_forall_not_mem]
        intro p hp
        obtain ⟨hmem, hgt⟩ := hE1mem p hp
        have := (hkeys p hmem).2
        simp only [lastRowExposure, List.getLast?_singleton] at this
        omega
    | cons y ys =>
      have hpw' := hpw.of_cons
      have hlb' : ∀ r ∈ y :: ys, x.exposure < r.exposure := fun r hr =>
        List.rel_of_pairwise_cons hpw hr
      have hkv' : ∀ p ∈ popExpected x.exposure
          (fill_missing_range (cutoffOf x.observatory) x.observatory x.mjd
            expected
            (List.range' (last + 1) (x.exposure - (last + 1)))).2.2,
          p.2.exposure = p.1 := fun p hp => hkv p (hE1mem p hp).1
      have hkeys' : ∀ p ∈ popExpected x.exposure
          (fill_missing_range (cutoffOf x.observatory) x.observatory x.mjd
            expected
            (List.range' (last + 1) (x.exposure - (last + 1)))).2.2,
          x.exposure < p.1 ∧ p.1 ≤ lastRowExposure (y :: ys) := by
        intro p hp
        obtain ⟨hmem, hgt⟩ := hE1mem p hp
        refine ⟨hgt, ?_⟩
        have := (hkeys p hmem).2
        rwa [lastRowExposure_cons_cons] at this
      obtain ⟨ih1, ih2⟩ :=
        ih (popExpected x.exposure
            (fill_missing_range (cutoffOf x.observatory) x.observatory x.mjd
              expected
              (List.range' (last + 1) (x.exposure - (last + 1)))).2.2)
          x.exposure (List.cons_ne_nil y ys) hpw' hlb' hkv' hkeys'
      have hxL : x.exposure ≤ lastRowExposure (y :: ys) := by
        obtain ⟨z, hz, hze⟩ :=
          lastRowExposure_mem (y :: ys) (List.cons_ne_nil y ys)
        have := hlb' z hz
        omega
      rw [organizeWalk_cons]
      constructor
      · simp only [List.map_append, hg1, List.map_cons, ih1]
        rw [lastRowExposure_cons_cons]
        have hshape : x.exposure :: List.range' (x.exposure + 1)
            (lastRowExposure (y :: ys) - x.exposure) =
            List.range' x.exposure
              ((lastRowExposure (y :: ys) - x.exposure) + 1) :=
          (List.range'_succ _ _ _).symm
        rw [hshape]
        rw [show List.range' x.exposure
              ((lastRowExposure (y :: ys) - x.exposure) + 1) =
            List.range' ((last + 1) + (x.exposure - (last + 1)))
              ((lastRowExposure (y :: ys) - x.exposure) + 1) from by
          congr 1
          omega]
        rw [List.range'_append_1]
        congr 1
        omega
      · exact ih2

theorem le_lastRowExposure_of_sorted :
    ∀ {s : List ExposureRow}, s.Pairwise rowLe →
      ∀ r ∈ s, r.exposure ≤ lastRowExposure s := by
  intro s
  induction s with
  | nil => intro _ r hr; exact absurd hr (List.not_mem_nil r)
  | cons a t ih =>
    intro hp r hr
    cases t with
    | nil =>
      rw [List.mem_singleton] at hr
      subst hr
      simp [lastRowExposure]
    | cons b t' =>
      rw [lastRowExposure_cons_cons]
      rcases List.mem_cons.mp hr with h | h
      · subst h
        obtain ⟨z, hz, hze⟩ :=
          lastRowExposure_mem (b :: t') (List.cons_ne_nil b t')
        have := List.rel_of_pairwise_cons hp hz
        unfold rowLe at this
        omega
      · exact ih hp.of_cons r h

/-- C1 amended: for a non-empty `on_disk` list with distinct exposure
numbers, least `n1` and greatest `nk`, and an `expected` mapping that is
key-consistent (each record carries its key as its exposure number) and
whose keys all lie between the starting cursor (exclusive) and `nk`
(inclusive), the reconciled output's exposure numbers are exactly the
contiguous range from `forceBaseline n1 + 1` (when
`require_exposures_start_at_1`, assuming the forced baseline lies below
`n1`) or from `n1` (otherwise) through `nk`, with no duplicates and no
gaps.  Without the restriction on the keys of `expected` the property
fails (see the counterexample). -/
theorem gap_filling_range (cutoffOf : String → Nat)
    (exposures : List ExposureRow) (expected : ExpectedMap)
    (require : Bool) (n1 nk : Nat)
    (hne : exposures ≠ [])
    (hnd : (exposures.map ExposureRow.exposure).Nodup)
    (h1mem : ∃ r ∈ exposures, r.exposure = n1)
    (h1lb : ∀ r ∈ exposures, n1 ≤ r.exposure)
    (hkmem : ∃ r ∈ exposures, r.exposure = nk)
    (hkub : ∀ r ∈ exposures, r.exposure ≤ nk)
    (hkv : ∀ p ∈ expected, p.2.exposure = p.1)
    (hbase : require = true → forceBaseline n1 < n1)
    (hkeys : ∀ p ∈ expected,
      (if require then forceBaseline n1 + 1 else n1) ≤ p.1 ∧ p.1 ≤ nk) :
    (organize_exposures cutoffOf exposures expected require).1.map
        ExposureRow.exposure =
      List.range' (if require then forceBaseline n1 + 1 else n1)
        (nk + 1 - (if require then forceBaseline n1 + 1 else n1)) := by
  have hperm : List.Perm (exposures.insertionSort rowLe) exposures :=
    List.perm_insertionSort rowLe exposures
  have hsorted : (exposures.insertionSort rowLe).Pairwise rowLe :=
    List.sorted_insertionSort rowLe exposures
  have hndS : ((exposures.insertionSort rowLe).map
      ExposureRow.exposure).Nodup :=
    ((hperm.map ExposureRow.exposure).nodup_iff).mpr hnd
  have hstrict : (exposures.insertionSort rowLe).Pairwise
      (fun a b => a.exposure < b.exposure) := by
    have hne' : (exposures.insertionSort rowLe).Pairwise
        (fun a b => a.exposure ≠ b.exposure) :=
      List.pairwise_map.mp hndS
    exact (hsorted.and hne').imp fun h => Nat.lt_of_le_of_ne h.1 h.2
  cases hsrt : exposures.insertionSort rowLe with
  | nil =>
    rw [hsrt] at hperm
    exact absurd hperm.symm.eq_nil hne
  | cons w s' =>
    rw [hsrt] at hsorted hstrict hndS
    have hmemS : ∀ r, r ∈ w :: s' ↔ r ∈ exposures := by
      intro r
      rw [← hsrt]
      exact hperm.mem_iff
    have hw : w.exposure = n1 := by
      obtain ⟨r, hr, hrn⟩ := h1mem
      have hrS : r ∈ w :: s' := (hmemS r).mpr hr
      have hwlb : n1 ≤ w.exposure := h1lb w ((hmemS w).mp
        (List.mem_cons_self w s'))
      rcases List.mem_cons.mp hrS with h | h
      · subst h
        omega
      · have := List.rel_of_pairwise_cons hsorted h
        unfold rowLe at this
        omega
    have hlastS : lastRowExposure (w :: s') = nk := by
      obtain ⟨r, hr, hrn⟩ := hkmem
      have hrS : r ∈ w :: s' := (hmemS r).mpr hr
      obtain ⟨z, hz, hze⟩ :=
        lastRowExposure_mem (w :: s') (List.cons_ne_nil w s')
      have h1 : z.exposure ≤ nk := hkub z ((hmemS z).mp hz)
      have h2 := le_lastRowExposure_of_sorted hsorted r hrS
      omega
    simp only [organize_exposures, hsrt]
    cases require with
    | true =>
      simp only [eq_self_iff_true, if_true] at hkeys ⊢
      have hb := hbase rfl
      obtain ⟨hw1, hw2⟩ := organizeWalk_spec cutoffOf (w :: s') expected
        (forceBaseline n1)
        (List.cons_ne_nil w s') hstrict
        (by
          intro r hr
          rcases List.mem_cons.mp hr with h | h
          · subst h
            omega
          · have h2 := List.rel_of_pairwise_cons hstrict h
            have h4 := h1lb r ((hmemS r).mp (List.mem_cons_of_mem w h))
            omega)
        hkv
        (by
          intro p hp
          obtain ⟨hlo, hhi⟩ := hkeys p hp
          exact ⟨by omega, by rw [hlastS]; exact hhi⟩)
      rw [hw]
      rw [hw2]
      simp only [List.map_nil, List.insertionSort, organizeTailGo,
        List.append_nil]
      have hsorted_rows : (organizeWalk cutoffOf (forceBaseline n1) expected
          (w :: s')).1.Pairwise rowLe := by
        have hpl := List.pairwise_lt_range' (forceBaseline n1 + 1)
          (lastRowExposure (w :: s') - forceBaseline n1) 1 (by simp)
        rw [← hw1] at hpl
        exact (List.pairwise_map.mp hpl).imp fun h => Nat.le_of_lt h
      rw [List.Sorted.insertionSort_eq hsorted_rows]
      rw [hw1, hlastS]
      congr 1
      omega
    | false =>
      simp only [Bool.false_eq_true, if_false] at hkeys ⊢
      rw [hw, organizeWalk_cons]
      have hgap : List.range' (n1 + 1) (w.exposure - (n1 + 1)) = [] := by
        have h0 : w.exposure - (n1 + 1) = 0 := by omega
        rw [h0, List.range'_zero]
      rw [hgap]
      simp only [fill_missing_range]
      have hrem_mem : ∀ p ∈ popExpected w.exposure expected,
          p ∈ expected ∧ w.exposure < p.1 := by
        intro p hp
        unfold popExpected at hp
        have hp1 : p.1 ≠ w.exposure := by
          have := List.of_mem_filter hp
          simpa using this
        have hp2 := List.mem_of_mem_filter hp
        have h3 := (hkeys p hp2).1
        exact ⟨hp2, by omega⟩
      cases s' with
      | nil =>
        have hk : nk = n1 := by
          rw [← hlastS]
          exact hw
        have hrem : popExpected w.exposure expected = [] := by
          rw [List.eq_nil_iff_forall_not_mem]
          intro p hp
          obtain ⟨hmem, hgt⟩ := hrem_mem p hp
          have h4 := (hkeys p hmem).2
          omega
        rw [organizeWalk_nil, hrem]
        simp only [List.map_nil, List.insertionSort, organizeTailGo,
          List.nil_append, List.append_nil, List.orderedInsert,
          List.map_cons]
        rw [hw, hk]
        have h5 : n1 + 1 - n1 = 1 := by omega
        rw [h5, List.range'_one]
      | cons y ys =>
        have hstrict' := hstrict.of_cons
        have hlb' : ∀ r ∈ y :: ys, w.exposure < r.exposure := fun r hr =>
          List.rel_of_pairwise_cons hstrict hr
        have hkv' : ∀ p ∈ popExpected w.exposure expected,
            p.2.exposure = p.1 := fun p hp => hkv p (hrem_mem p hp).1
        have hkeys' : ∀ p ∈ popExpected w.exposure expected,
            w.exposure < p.1 ∧ p.1 ≤ lastRowExposure (y :: ys) := by
          intro p hp
          obtain ⟨hmem, hgt⟩ := hrem_mem p hp
          refine ⟨hgt, ?_⟩
          have h4 := (hkeys p hmem).2
          rw [← hlastS, lastRowExposure_cons_cons] at h4
          exact h4
        obtain ⟨ihm, ihr⟩ := organizeWalk_spec cutoffOf (y :: ys)
          (popExpected w.exposure expected) w.exposure
          (List.cons_ne_nil y ys) hstrict' hlb' hkv' hkeys'
        rw [ihr]
        rw [show organizeTailGo ([] : ExpectedMap)
            ((List.map Prod.fst ([] : ExpectedMap)).insertionSort (· ≤ ·)) =
            ([], []) from rfl]
        simp only [List.nil_append, List.append_nil]
        have hL : lastRowExposure (y :: ys) = nk := by
          rw [← hlastS, lastRowExposure_cons_cons]
        have hrows : (w :: (organizeWalk cutoffOf w.exposure
            (popExpected w.exposure expected) (y :: ys)).1).map
              ExposureRow.exposure =
            List.range' n1 (nk + 1 - n1) := by
          rw [List.map_cons, ihm, hL, hw]
          rw [show (n1 :: List.range' (n1 + 1) (nk - n1)) =
              List.range' n1 ((nk - n1) + 1) from
            (List.range'_succ _ _ _).symm]
          congr 1
          have h6 : n1 ≤ nk := by
            have h7 := hkub w ((hmemS w).mp (List.mem_cons_self w (y :: ys)))
            omega
          omega
        have hsorted_rows : (w :: (organizeWalk cutoffOf w.exposure
            (popExpected w.exposure expected) (y :: ys)).1).Pairwise
              rowLe := by
          have hpl := List.pairwise_lt_range' n1 (nk + 1 - n1) 1 (by simp)
          rw [← hrows] at hpl
          exact (List.pairwise_map.mp hpl).imp fun h => Nat.le_of_lt h
        rw [List.Sorted.insertionSort_eq hsorted_rows]
        exact hrows

theorem gap_filling_range_witness :
    (organize_exposures (fun _ => 59558)
        [⟨10000002, "apo", 59900, "Object", "OBJECT", "c", "", true⟩]
        [(10000001, ⟨10000001, "apo", 59900, "c1", "Object", "Object", ""⟩)]
        true).1.map ExposureRow.exposure =
      List.range' (forceBaseline 10000002 + 1)
        (10000002 + 1 - (forceBaseline 10000002 + 1)) :=
  gap_filling_range (fun _ => 59558)
    [⟨10000002, "apo", 59900, "Object", "OBJECT", "c", "", true⟩]
    [(10000001, ⟨10000001, "apo", 59900, "c1", "Object", "Object", ""⟩)]
    true 10000002 10000002 (by decide) (by decide) (by decide) (by decide)
    (by decide) (by decide) (by decide) (fun _ => by decide) (by decide)

/-- Two exposure-sorted row lists that are permutations of each other and
have pairwise-distinct exposure numbers are equal. -/
theorem sorted_perm_eq_of_nodup :
    ∀ {l₁ l₂ : List ExposureRow}, List.Perm l₁ l₂ →
      l₁.Pairwise rowLe → l₂.Pairwise rowLe →
      (l₁.map ExposureRow.exposure).Nodup → l₁ = l₂ := by
  intro l₁
  induction l₁ with
  | nil =>
    intro l₂ hp _ _ _
    exact hp.nil_eq
  | cons a t ih =>
    intro l₂ hp hs1 hs2 hnd
    cases l₂ with
    | nil => exact absurd hp.eq_nil (List.cons_ne_nil a t)
    | cons b t₂ =>
      by_cases hab : a = b
      · subst hab
        rw [ih hp.cons_inv hs1.of_cons hs2.of_cons
          (by simpa using List.Nodup.of_cons (by simpa using hnd))]
      · have hbmem : b ∈ a :: t := hp.mem_iff.mpr (List.mem_cons_self b t₂)
        have hamem : a ∈ b :: t₂ := hp.mem_iff.mp (List.mem_cons_self a t)
        have hb_t : b ∈ t := by
          rcases List.mem_cons.mp hbmem with h | h
          · exact absurd h.symm hab
          · exact h
        have ha_t2 : a ∈ t₂ := by
          rcases List.mem_cons.mp hamem with h | h
          · exact absurd h hab
          · exact h
        have h1 : rowLe a b := List.rel_of_pairwise_cons hs1 hb_t
        have h2 : rowLe b a := List.rel_of_pairwise_cons hs2 ha_t2
        have heq : a.exposure = b.exposure :=
          Nat.le_antisymm h1 h2
        exact absurd
          (List.inj_on_of_nodup_map hnd (List.mem_cons_self a t) hbmem heq)
          hab

/-- C7 counterexample: re-sort invariance fails when two on-disk records
share an exposure number — the stable sort preserves their input order, so
the two permutations reconcile to row lists in different orders. -/
theorem reconcile_order_sensitive :
    List.Perm
      [(⟨5, "apo", 59900, "Object", "OBJECT", "c", "", true⟩ : ExposureRow),
        ⟨5, "lco", 59900, "Object", "OBJECT", "c", "", true⟩]
      [(⟨5, "lco", 59900, "Object", "OBJECT", "c", "", true⟩ : ExposureRow),
        ⟨5, "apo", 59900, "Object", "OBJECT", "c", "", true⟩] ∧
    organize_exposures (fun _ => 59558)
        [⟨5, "apo", 59900, "Object", "OBJECT", "c", "", true⟩,
          ⟨5, "lco", 59900, "Object", "OBJECT", "c", "", true⟩] [] true ≠
      organize_exposures (fun _ => 59558)
        [⟨5, "lco", 59900, "Object", "OBJECT", "c", "", true⟩,
          ⟨5, "apo", 59900, "Object", "OBJECT", "c", "", true⟩] [] true := by
  exact ⟨List.Perm.swap _ _ _, by decide⟩

/-- C7 amended: when the on-disk records carry distinct exposure numbers,
`organize_exposures` is invariant under any permutation of its input:
same records in the same order and same messages. -/
theorem reconcile_perm_invariant (cutoffOf : String → Nat)
    (l l' : List ExposureRow) (expected : ExpectedMap) (req : Bool)
    (hperm : List.Perm l l')
    (hnd : (l.map ExposureRow.exposure).Nodup) :
    organize_exposures cutoffOf l' expected req =
      organize_exposures cutoffOf l expected req := by
  have hsort_eq : l'.insertionSort rowLe = l.insertionSort rowLe := by
    apply sorted_perm_eq_of_nodup
    · exact (List.perm_insertionSort rowLe l').trans
        (hperm.symm.trans (List.perm_insertionSort rowLe l).symm)
    · exact List.sorted_insertionSort rowLe l'
    · exact List.sorted_insertionSort rowLe l
    · have : List.Perm (l'.insertionSort rowLe) l' :=
        List.perm_insertionSort rowLe l'
      exact ((this.map ExposureRow.exposure).nodup_iff).mpr
        ((hperm.map ExposureRow.exposure).nodup_iff.mp hnd)
  simp only [organize_exposures, hsort_eq]

theorem reconcile_perm_invariant_witness :
    List.Perm
      [(⟨7, "apo", 59900, "Object", "OBJECT", "c", "", true⟩ : ExposureRow),
        ⟨8, "apo", 59900, "Object", "OBJECT", "c", "", true⟩]
      [(⟨8, "apo", 59900, "Object", "OBJECT", "c", "", true⟩ : ExposureRow),
        ⟨7, "apo", 59900, "Object", "OBJECT", "c", "", true⟩] ∧
    organize_exposures (fun _ => 59558)
        [⟨8, "apo", 59900, "Object", "OBJECT", "c", "", true⟩,
          ⟨7, "apo", 59900, "Object", "OBJECT", "c", "", true⟩] [] false =
      organize_exposures (fun _ => 59558)
        [⟨7, "apo", 59900, "Object", "OBJECT", "c", "", true⟩,
          ⟨8, "apo", 59900, "Object", "OBJECT", "c", "", true⟩] [] false :=
  ⟨List.Perm.swap _ _ _,
    reconcile_perm_invariant (fun _ => 59558)
      [⟨7, "apo", 59900, "Object", "OBJECT", "c", "", true⟩,
        ⟨8, "apo", 59900, "Object", "OBJECT", "c", "", true⟩]
      [⟨8, "apo", 59900, "Object", "OBJECT", "c", "", true⟩,
        ⟨7, "apo", 59900, "Object", "OBJECT", "c", "", true⟩]
      [] false (List.Perm.swap _ _ _) (by decide)⟩

/-- One-step unfolding of `chunkBy` on two leading elements. -/
theorem chunkBy_cons_cons (p : α → α → Bool) (x y : α) (xs : List α) :
    chunkBy p (x :: y :: xs) =
      match chunkBy p (y :: xs) with
      | [] => [[x]]
      | c :: cs => if p x y then (x :: c) :: cs else [x] :: c :: cs := rfl

/-- Applying `chunkBy` to a non-empty list starts with a chunk led by the head. -/
theorem chunkBy_cons (p : α → α → Bool) (a : α) :
    ∀ l : List α, ∃ t cs, chunkBy p (a :: l) = (a :: t) :: cs
  | [] => ⟨[], [], rfl⟩
  | b :: l => by
    obtain ⟨t, cs, h⟩ := chunkBy_cons p b l
    by_cases hp : p a b
    · exact ⟨b :: t, cs, by rw [chunkBy_cons_cons, h]; simp [hp]⟩
    · exact ⟨[], (b :: t) :: cs, by rw [chunkBy_cons_cons, h]; simp [hp]⟩

/-- The chunks of `chunkBy` concatenate back to the input, and every chunk
is a non-empty run of adjacent elements satisfying `p`. -/
theorem chunkBy_spec (p : α → α → Bool) :
    ∀ l : List α,
      (chunkBy p l).flatten = l ∧
      (∀ c ∈ chunkBy p l, c ≠ [] ∧ c.Chain' (fun u v => p u v = true))
  | [] => ⟨rfl, by intro c hc; simp [chunkBy] at hc⟩
  | [x] => by
    refine ⟨rfl, ?_⟩
    intro c hc
    simp only [chunkBy, List.mem_singleton] at hc
    subst hc
    exact ⟨List.cons_ne_nil x [], List.chain'_singleton x⟩
  | x :: y :: xs => by
    obtain ⟨hfl, hch⟩ := chunkBy_spec p (y :: xs)
    obtain ⟨t, cs, hcb⟩ := chunkBy_cons p y xs
    rw [hcb] at hfl hch
    rw [chunkBy_cons_cons, hcb]
    by_cases hp : p x y
    · simp only [hp, if_true]
      constructor
      · simp only [List.flatten_cons] at hfl ⊢
        rw [List.cons_append, hfl]
      · intro c hc
        rcases List.mem_cons.mp hc with h | h
        · subst h
          have h0 := hch (y :: t) (List.mem_cons_self _ _)
          exact ⟨List.cons_ne_nil _ _, List.chain'_cons.mpr ⟨hp, h0.2⟩⟩
        · exact hch c (List.mem_cons_of_mem _ h)
    · simp only [hp, if_false]
      constructor
      · simp only [List.flatten_cons] at hfl ⊢
        simp [hfl]
      · intro c hc
        rcases List.mem_cons.mp hc with h | h
        · subst h
          exact ⟨List.cons_ne_nil x [], List.chain'_singleton x⟩
        · exact hch c h

/-- All elements of a run of adjacent `==`-related keys share the head's
key. -/
theorem chain_beq_const {K : Type} [DecidableEq K] (f : α → K) :
    ∀ {l : List α} {h : α},
      List.Chain' (fun u v => (f u == f v) = true) (h :: l) →
      ∀ v ∈ h :: l, f v = f h := by
  intro l
  induction l with
  | nil =>
    intro h _ v hv
    rw [List.mem_singleton] at hv
    rw [hv]
  | cons b t ih =>
    intro h hch v hv
    have h1 : f h = f b := by
      have := List.chain'_cons.mp hch
      simpa using this.1
    rcases List.mem_cons.mp hv with h2 | h2
    · rw [h2]
    · rw [ih (List.chain'_cons.mp hch).2 v h2, h1]

/-- Stability of the `group_by` re-sort: in the key-sorted list, two
records with the same grouping key appear in ascending exposure order
(strictly, given distinct exposure numbers). -/
theorem keySorted_pairwise_stable {K : Type} [LinearOrder K]
    (keyOf : TimelineRow → K) (F : List TimelineRow)
    (hnd : (F.map TimelineRow.exposure).Nodup) :
    ((F.insertionSort seqLe).insertionSort (keyLe keyOf)).Pairwise
      (fun u v => keyOf u = keyOf v → u.exposure < v.exposure) := by
  have hSsort : (F.insertionSort seqLe).Pairwise seqLe :=
    List.sorted_insertionSort seqLe F
  have hpermTS : List.Perm
      ((F.insertionSort seqLe).insertionSort (keyLe keyOf))
      (F.insertionSort seqLe) :=
    List.perm_insertionSort (keyLe keyOf) (F.insertionSort seqLe)
  have hpermSF : List.Perm (F.insertionSort seqLe) F :=
    List.perm_insertionSort seqLe F
  have hndT : (((F.insertionSort seqLe).insertionSort (keyLe keyOf)).map
      TimelineRow.exposure).Nodup :=
    ((hpermTS.trans hpermSF).map TimelineRow.exposure).nodup_iff.mpr hnd
  rw [List.pairwise_iff_forall_sublist]
  intro u v huv hk
  have hApw : ((F.insertionSort seqLe).filter
      (fun r => decide (keyOf r = keyOf u))).Pairwise (keyLe keyOf) := by
    rw [List.pairwise_iff_forall_sublist]
    intro a b hab
    have ha : a ∈ (F.insertionSort seqLe).filter
        (fun r => decide (keyOf r = keyOf u)) :=
      hab.subset (List.mem_cons_self a [b])
    have hb : b ∈ (F.insertionSort seqLe).filter
        (fun r => decide (keyOf r = keyOf u)) :=
      hab.subset (List.mem_cons_of_mem a (List.mem_singleton.mpr rfl))
    have hka : keyOf a = keyOf u := by
      simpa using (List.mem_filter.mp ha).2
    have hkb : keyOf b = keyOf u := by
      simpa using (List.mem_filter.mp hb).2
    unfold keyLe
    rw [hka, hkb]
  have hAT : ((F.insertionSort seqLe).filter
      (fun r => decide (keyOf r = keyOf u))).Sublist
      ((F.insertionSort seqLe).insertionSort (keyLe keyOf)) :=
    List.sublist_insertionSort hApw (List.filter_sublist _)
  have hfe : (F.insertionSort seqLe).filter
      (fun r => decide (keyOf r = keyOf u)) =
      ((F.insertionSort seqLe).insertionSort (keyLe keyOf)).filter
        (fun r => decide (keyOf r = keyOf u)) := by
    have hidem : ((F.insertionSort seqLe).filter
        (fun r => decide (keyOf r = keyOf u))).filter
          (fun r => decide (keyOf r = keyOf u)) =
        (F.insertionSort seqLe).filter
          (fun r => decide (keyOf r = keyOf u)) :=
      List.filter_eq_self.mpr fun a ha => (List.mem_filter.mp ha).2
    have h1 := hAT.filter (fun r => decide (keyOf r = keyOf u))
    rw [hidem] at h1
    exact h1.eq_of_length
      ((hpermTS.filter (fun r => decide (keyOf r = keyOf u))).length_eq).symm
  have huv' : List.Sublist [u, v] ((F.insertionSort seqLe).filter
      (fun r => decide (keyOf r = keyOf u))) := by
    have h2 : [u, v].filter (fun r => decide (keyOf r = keyOf u)) =
        [u, v] := by
      simp [hk.symm]
    rw [hfe, ← h2]
    exact huv.filter _
  have hle : seqLe u v :=
    List.pairwise_iff_forall_sublist.mp (hSsort.filter _) huv'
  have hne : u.exposure ≠ v.exposure :=
    List.pairwise_iff_forall_sublist.mp hndT
      (huv.map TimelineRow.exposure)
  exact Nat.lt_of_le_of_ne hle hne

/-- On a key-sorted list, distinct groups produced by `chunkBy` on key
equality carry strictly increasing grouping keys. -/
theorem chunkBy_keq_pairwise_lt {K : Type} [LinearOrder K]
    (keyOf : TimelineRow → K) :
    ∀ T : List TimelineRow, T.Pairwise (keyLe keyOf) →
      (chunkBy (fun a b => keyOf a == keyOf b) T).Pairwise
        (fun g g' => ∀ u ∈ g, ∀ v ∈ g', keyOf u < keyOf v)
  | [] => by intro _; simp [chunkBy]
  | [x] => by intro _; simp [chunkBy]
  | x :: y :: xs => by
    intro hpw
    have ih := chunkBy_keq_pairwise_lt keyOf (y :: xs) hpw.of_cons
    obtain ⟨t, cs, hcb⟩ := chunkBy_cons (fun a b => keyOf a == keyOf b) y xs
    rw [hcb] at ih
    obtain ⟨hfl, hch⟩ := chunkBy_spec (fun a b => keyOf a == keyOf b) (y :: xs)
    rw [hcb] at hfl hch
    have hconst : ∀ v ∈ y :: t, keyOf v = keyOf y :=
      chain_beq_const keyOf ((hch (y :: t) (List.mem_cons_self _ _)).2)
    rw [chunkBy_cons_cons, hcb]
    by_cases hp : keyOf x == keyOf y
    · have hpeq : keyOf x = keyOf y := by simpa using hp
      simp only [hp, if_true]
      refine List.pairwise_cons.mpr ⟨?_, ih.of_cons⟩
      intro g' hg' u hu v hv
      have hyrel := List.rel_of_pairwise_cons ih hg'
      rcases List.mem_cons.mp hu with h | h
      · subst h
        have := hyrel y (List.mem_cons_self y t) v hv
        calc keyOf u = keyOf y := hpeq
        _ < keyOf v := this
      · exact hyrel u h v hv
    · have hpne : keyOf x ≠ keyOf y := by simpa using hp
      simp only [hp, if_false]
      have hxle : ∀ v ∈ y :: xs, keyOf x ≤ keyOf v := fun v hv =>
        List.rel_of_pairwise_cons hpw hv
      have hxlty : keyOf x < keyOf y :=
        lt_of_le_of_ne (hxle y (List.mem_cons_self y xs)) hpne
      refine List.pairwise_cons.mpr ⟨?_, ih⟩
      intro g' hg' u hu v hv
      rw [List.mem_singleton] at hu
      subst hu
      rcases List.mem_cons.mp hg' with h | h
      · subst h
        calc keyOf u < keyOf y := hxlty
        _ = keyOf v := (hconst v hv).symm
      · have hyrel := List.rel_of_pairwise_cons ih h
        exact hxlty.trans (hyrel y (List.mem_cons_self y t) v hv)

/-- A chunk whose adjacent exposure numbers differ by at most one and
which is strictly increasing consists of consecutive exposure numbers. -/
theorem chain_consecutive :
    ∀ c : List TimelineRow,
      c.Chain' (fun u v => decide (v.exposure - u.exposure ≤ 1) = true) →
      c.Pairwise (fun u v => u.exposure < v.exposure) →
      c.map TimelineRow.exposure = List.range' (headExposure c) c.length
  | [] => by intro _ _; rfl
  | [x] => by intro _ _; rfl
  | x :: y :: t => by
    intro hch hpw
    have h1 : y.exposure - x.exposure ≤ 1 := by
      have := (List.chain'_cons.mp hch).1
      simpa using this
    have h2 : x.exposure < y.exposure :=
      List.rel_of_pairwise_cons hpw (List.mem_cons_self y t)
    have h3 : y.exposure = x.exposure + 1 := by omega
    have ih := chain_consecutive (y :: t) (List.chain'_cons.mp hch).2
      hpw.of_cons
    show x.exposure :: (y :: t).map TimelineRow.exposure =
      List.range' x.exposure ((y :: t).length + 1)
    rw [ih, List.range'_succ]
    congr 1
    simp only [headExposure]
    rw [h3]

/-- The last exposure of a consecutive chunk is `head + length - 1`. -/
theorem lastExposure_of_range :
    ∀ (c : List TimelineRow) (a : Nat), c ≠ [] →
      c.map TimelineRow.exposure = List.range' a c.length →
      lastExposure c = a + c.length - 1 := by
  intro c a hne hmap
  cases hlast : c.getLast? with
  | none => exact absurd (List.getLast?_eq_none_iff.mp hlast) hne
  | some z =>
    have h1 : (c.map TimelineRow.exposure).getLast? = some z.exposure := by
      rw [List.getLast?_map, hlast, Option.map_some']
    rw [hmap] at h1
    cases c with
    | nil => exact absurd rfl hne
    | cons w t =>
      have hlen : (w :: t).length = t.length + 1 := rfl
      rw [hlen, List.range'_1_concat, List.getLast?_concat] at h1
      have h2 : z.exposure = a + t.length :=
        (Option.some.inj h1).symm
      simp only [lastExposure, hlast, hlen]
      omega

/-- Every pair emitted by `get_sequence_exposure_numbers` (with
`require_contiguous`) is the head/last exposure of one contiguous chunk
of one grouping-key group of the key-sorted filtered timeline. -/
theorem gseq_mem_decomp {K : Type} [LinearOrder K]
    (keyOf : TimelineRow → K) (tl : List TimelineRow) (it : String)
    (rpe : Bool) {ab : Nat × Nat}
    (h : ab ∈ get_sequence_exposure_numbers keyOf tl it true rpe) :
    ∃ grp ∈ chunkBy (fun a b => keyOf a == keyOf b)
        (((seqFilter tl it rpe).insertionSort seqLe).insertionSort
          (keyLe keyOf)),
      ∃ c ∈ chunkBy (fun u v => decide (v.exposure - u.exposure ≤ 1)) grp,
        ab = (headExposure c, lastExposure c) := by
  unfold get_sequence_exposure_numbers at h
  by_cases he : (seqFilter tl it rpe).isEmpty
  · rw [if_pos he] at h
    exact absurd h (List.not_mem_nil ab)
  · rw [if_neg he] at h
    simp only [if_true, List.mem_flatMap, List.mem_map] at h
    obtain ⟨grp, hgrp, c, hc, hab⟩ := h
    exact ⟨grp, hgrp, c, hc, hab.symm⟩

/-- C3: with a duplicate-free timeline, every sequence `(a, b)` detected
with `require_contiguous` covers exactly the exposure numbers `a..b` of
the filtered timeline: every number in `[a, b]` is realised by a filtered
record, and all filtered records with exposure number in `[a, b]` share
one grouping key. -/
theorem sequence_contiguity {K : Type} [LinearOrder K]
    (keyOf : TimelineRow → K) (tl : List TimelineRow) (it : String)
    (rpe : Bool) (a b : Nat)
    (hnd : (tl.map TimelineRow.exposure).Nodup)
    (hmem : (a, b) ∈ get_sequence_exposure_numbers keyOf tl it true rpe) :
    (∀ n, a ≤ n → n ≤ b →
      ∃ r ∈ seqFilter tl it rpe, r.exposure = n) ∧
    (∀ r ∈ seqFilter tl it rpe, ∀ s ∈ seqFilter tl it rpe,
      a ≤ r.exposure → r.exposure ≤ b → a ≤ s.exposure →
      s.exposure ≤ b → keyOf r = keyOf s) := by
  obtain ⟨grp, hgrp, c, hc, hab⟩ := gseq_mem_decomp keyOf tl it rpe hmem
  have hndF : ((seqFilter tl it rpe).map TimelineRow.exposure).Nodup :=
    List.Nodup.sublist ((List.filter_sublist tl).map _) hnd
  have hpermTS : List.Perm
      (((seqFilter tl it rpe).insertionSort seqLe).insertionSort
        (keyLe keyOf))
      ((seqFilter tl it rpe).insertionSort seqLe) :=
    List.perm_insertionSort _ _
  have hpermSF : List.Perm
      ((seqFilter tl it rpe).insertionSort seqLe) (seqFilter tl it rpe) :=
    List.perm_insertionSort _ _
  have hmemT : ∀ r, r ∈ ((seqFilter tl it rpe).insertionSort
      seqLe).insertionSort (keyLe keyOf) ↔ r ∈ seqFilter tl it rpe :=
    fun r => (hpermTS.trans hpermSF).mem_iff
  obtain ⟨hTfl, hTch⟩ := chunkBy_spec (fun u v => keyOf u == keyOf v)
    (((seqFilter tl it rpe).insertionSort seqLe).insertionSort
      (keyLe keyOf))
  have hgrp_sub : grp.Sublist (((seqFilter tl it rpe).insertionSort
      seqLe).insertionSort (keyLe keyOf)) := by
    have h0 := List.sublist_flatten_of_mem hgrp
    rwa [hTfl] at h0
  obtain ⟨hgrp_ne, hgrp_ch⟩ := hTch grp hgrp
  have hGspec :=
    chunkBy_spec (fun u v => decide (v.exposure - u.exposure ≤ 1)) grp
  obtain ⟨hGfl, hGch⟩ := hGspec
  have hc_sub : c.Sublist grp := by
    have h0 := List.sublist_flatten_of_mem hc
    rwa [hGfl] at h0
  obtain ⟨hc_ne, hc_ch⟩ := hGch c hc
  -- key constancy on the group
  obtain ⟨g0, gt, hg0⟩ := List.exists_cons_of_ne_nil hgrp_ne
  have hkconst : ∀ v ∈ grp, keyOf v = keyOf g0 := by
    rw [hg0]
    exact chain_beq_const keyOf (hg0 ▸ hgrp_ch)
  -- strict exposure order inside the group, hence inside the chunk
  have hstab := keySorted_pairwise_stable keyOf (seqFilter tl it rpe) hndF
  have hgrp_lt : grp.Pairwise (fun u v => u.exposure < v.exposure) := by
    have h1 := List.Pairwise.sublist hgrp_sub hstab
    exact h1.imp_of_mem fun hu hv himp =>
      himp (by rw [hkconst _ hu, hkconst _ hv])
  have hc_lt : c.Pairwise (fun u v => u.exposure < v.exposure) :=
    List.Pairwise.sublist hc_sub hgrp_lt
  have hmapc := chain_consecutive c hc_ch hc_lt
  have hlastc := lastExposure_of_range c (headExposure c) hc_ne hmapc
  have hlen_pos : 0 < c.length := by
    cases c with
    | nil => exact absurd rfl hc_ne
    | cons u t => simp
  have ha : a = headExposure c := congrArg Prod.fst hab
  have hb : b = lastExposure c := congrArg Prod.snd hab
  have hbval : b = a + c.length - 1 := by rw [ha, hb, hlastc]
  have hrealised : ∀ n, a ≤ n → n ≤ b →
      ∃ r ∈ seqFilter tl it rpe, r.exposure = n := by
    intro n h1 h2
    have hn : n ∈ c.map TimelineRow.exposure := by
      rw [hmapc, List.mem_range'_1]
      omega
    obtain ⟨r, hr, hre⟩ := List.mem_map.mp hn
    refine ⟨r, ?_, hre⟩
    rw [← hmemT r]
    exact hgrp_sub.subset (hc_sub.subset hr)
  refine ⟨hrealised, ?_⟩
  have hchunk_of : ∀ r ∈ seqFilter tl it rpe, a ≤ r.exposure →
      r.exposure ≤ b → r ∈ c := by
    intro r hrF h1 h2
    obtain ⟨u, hu, hue⟩ := by
      have hn : r.exposure ∈ c.map TimelineRow.exposure := by
        rw [hmapc, List.mem_range'_1]
        omega
      exact List.mem_map.mp hn
    have huF : u ∈ seqFilter tl it rpe := by
      rw [← hmemT u]
      exact hgrp_sub.subset (hc_sub.subset hu)
    have : u = r := List.inj_on_of_nodup_map hndF huF hrF hue
    rwa [← this]
  intro r hrF s hsF hr1 hr2 hs1 hs2
  have hrc := hchunk_of r hrF hr1 hr2
  have hsc := hchunk_of s hsF hs1 hs2
  rw [hkconst r (hc_sub.subset hrc), hkconst s (hc_sub.subset hsc)]

theorem headExposure_mem :
    ∀ c : List TimelineRow, c ≠ [] → ∃ h ∈ c, h.exposure = headExposure c
  | [], h => absurd rfl h
  | x :: t, _ => ⟨x, List.mem_cons_self x t, rfl⟩

theorem flatten_flatMap_chunkBy (p : α → α → Bool) :
    ∀ gs : List (List α), (gs.flatMap (chunkBy p)).flatten = gs.flatten
  | [] => rfl
  | g :: gs => by
    simp only [List.flatMap_cons, List.flatten_append, (chunkBy_spec p g).1,
      flatten_flatMap_chunkBy p gs, List.flatten_cons]

/-- Facts about one contiguous chunk of one key group of the key-sorted
filtered timeline: it is non-empty, its exposure numbers are the
consecutive range starting at its head, its last exposure is
`head + length - 1`, and its members belong to the filtered timeline. -/
theorem chunk_facts {K : Type} [LinearOrder K]
    (keyOf : TimelineRow → K) (tl : List TimelineRow) (it : String)
    (rpe : Bool) (hnd : (tl.map TimelineRow.exposure).Nodup)
    {grp c : List TimelineRow}
    (hgrp : grp ∈ chunkBy (fun a b => keyOf a == keyOf b)
      (((seqFilter tl it rpe).insertionSort seqLe).insertionSort
        (keyLe keyOf)))
    (hc : c ∈ chunkBy (fun u v => decide (v.exposure - u.exposure ≤ 1)) grp) :
    c ≠ [] ∧
    c.map TimelineRow.exposure = List.range' (headExposure c) c.length ∧
    lastExposure c = headExposure c + c.length - 1 ∧
    (∀ v ∈ c, v ∈ seqFilter tl it rpe) := by
  have hndF : ((seqFilter tl it rpe).map TimelineRow.exposure).Nodup :=
    List.Nodup.sublist ((List.filter_sublist tl).map _) hnd
  have hpermTS : List.Perm
      (((seqFilter tl it rpe).insertionSort seqLe).insertionSort
        (keyLe keyOf))
      ((seqFilter tl it rpe).insertionSort seqLe) :=
    List.perm_insertionSort _ _
  have hpermSF : List.Perm
      ((seqFilter tl it rpe).insertionSort seqLe) (seqFilter tl it rpe) :=
    List.perm_insertionSort _ _
  obtain ⟨hTfl, hTch⟩ := chunkBy_spec (fun u v => keyOf u == keyOf v)
    (((seqFilter tl it rpe).insertionSort seqLe).insertionSort
      (keyLe keyOf))
  have hgrp_sub : grp.Sublist (((seqFilter tl it rpe).insertionSort
      seqLe).insertionSort (keyLe keyOf)) := by
    have h0 := List.sublist_flatten_of_mem hgrp
    rwa [hTfl] at h0
  obtain ⟨hgrp_ne, hgrp_ch⟩ := hTch grp hgrp
  have hGspec :=
    chunkBy_spec (fun u v => decide (v.exposure - u.exposure ≤ 1)) grp
  obtain ⟨hGfl, hGch⟩ := hGspec
  have hc_sub : c.Sublist grp := by
    have h0 := List.sublist_flatten_of_mem hc
    rwa [hGfl] at h0
  obtain ⟨hc_ne, hc_ch⟩ := hGch c hc
  obtain ⟨g0, gt, hg0⟩ := List.exists_cons_of_ne_nil hgrp_ne
  have hkconst : ∀ v ∈ grp, keyOf v = keyOf g0 := by
    rw [hg0]
    exact chain_beq_const keyOf (hg0 ▸ hgrp_ch)
  have hstab := keySorted_pairwise_stable keyOf (seqFilter tl it rpe) hndF
  have hgrp_lt : grp.Pairwise (fun u v => u.exposure < v.exposure) := by
    have h1 := List.Pairwise.sublist hgrp_sub hstab
    exact h1.imp_of_mem fun hu hv himp =>
      himp (by rw [hkconst _ hu, hkconst _ hv])
  have hc_lt : c.Pairwise (fun u v => u.exposure < v.exposure) :=
    List.Pairwise.sublist hc_sub hgrp_lt
  have hmapc := chain_consecutive c hc_ch hc_lt
  refine ⟨hc_ne, hmapc,
    lastExposure_of_range c (headExposure c) hc_ne hmapc, ?_⟩
  intro v hv
  have hvT : v ∈ ((seqFilter tl it rpe).insertionSort
      seqLe).insertionSort (keyLe keyOf) :=
    hgrp_sub.subset (hc_sub.subset hv)
  exact (hpermTS.trans hpermSF).mem_iff.mp hvT

/-- Members of one key group all share the group's key; two records of
distinct key groups have strictly ordered (hence different) keys. -/
theorem group_key_facts {K : Type} [LinearOrder K]
    (keyOf : TimelineRow → K) (T : List TimelineRow)
    (hT : T.Pairwise (keyLe keyOf)) :
    (∀ grp ∈ chunkBy (fun a b => keyOf a == keyOf b) T,
      ∀ u ∈ grp, ∀ v ∈ grp, keyOf u = keyOf v) ∧
    (chunkBy (fun a b => keyOf a == keyOf b) T).Pairwise
      (fun g g' => ∀ u ∈ g, ∀ v ∈ g', keyOf u < keyOf v) := by
  refine ⟨?_, chunkBy_keq_pairwise_lt keyOf T hT⟩
  intro grp hgrp u hu v hv
  obtain ⟨-, hch⟩ :=
    (chunkBy_spec (fun a b => keyOf a == keyOf b) T).2 grp hgrp
  have hne : grp ≠ [] :=
    ((chunkBy_spec (fun a b => keyOf a == keyOf b) T).2 grp hgrp).1
  obtain ⟨g0, gt, hg0⟩ := List.exists_cons_of_ne_nil hne
  have hconst : ∀ w ∈ grp, keyOf w = keyOf g0 := by
    rw [hg0]
    exact chain_beq_const keyOf (hg0 ▸ hch)
  rw [hconst u hu, hconst v hv]

/-- One key group of the key-sorted filtered timeline has strictly
increasing exposure numbers (stability of the key sort plus distinct
exposure numbers). -/
theorem grp_pairwise_lt {K : Type} [LinearOrder K]
    (keyOf : TimelineRow → K) (tl : List TimelineRow) (it : String)
    (rpe : Bool) (hnd : (tl.map TimelineRow.exposure).Nodup)
    {grp : List TimelineRow}
    (hgrp : grp ∈ chunkBy (fun a b => keyOf a == keyOf b)
      (((seqFilter tl it rpe).insertionSort seqLe).insertionSort
        (keyLe keyOf))) :
    grp.Pairwise (fun u v => u.exposure < v.exposure) := by
  have hndF : ((seqFilter tl it rpe).map TimelineRow.exposure).Nodup :=
    List.Nodup.sublist ((List.filter_sublist tl).map _) hnd
  obtain ⟨hTfl, hTch⟩ := chunkBy_spec (fun u v => keyOf u == keyOf v)
    (((seqFilter tl it rpe).insertionSort seqLe).insertionSort
      (keyLe keyOf))
  have hgrp_sub : grp.Sublist (((seqFilter tl it rpe).insertionSort
      seqLe).insertionSort (keyLe keyOf)) := by
    have h0 := List.sublist_flatten_of_mem hgrp
    rwa [hTfl] at h0
  obtain ⟨hgrp_ne, hgrp_ch⟩ := hTch grp hgrp
  obtain ⟨g0, gt, hg0⟩ := List.exists_cons_of_ne_nil hgrp_ne
  have hkconst : ∀ v ∈ grp, keyOf v = keyOf g0 := by
    rw [hg0]
    exact chain_beq_const keyOf (hg0 ▸ hgrp_ch)
  have hstab := keySorted_pairwise_stable keyOf (seqFilter tl it rpe) hndF
  have h1 := List.Pairwise.sublist hgrp_sub hstab
  exact h1.imp_of_mem fun hu hv himp =>
    himp (by rw [hkconst _ hu, hkconst _ hv])

/-- C4 amended: with a duplicate-free timeline and `require_contiguous`,
the detected sequences are pairwise non-overlapping as integer ranges;
the returned list is ordered by grouping key, and among sequences whose
endpoints carry the same grouping key the start exposure numbers strictly
increase.  Global monotonicity of the starts fails (see the
counterexample), because astropy's `group_by` re-sorts the rows by the
grouping key. -/
theorem sequence_disjointness {K : Type} [LinearOrder K]
    (keyOf : TimelineRow → K) (tl : List TimelineRow) (it : String)
    (rpe : Bool)
    (hnd : (tl.map TimelineRow.exposure).Nodup) :
    (get_sequence_exposure_numbers keyOf tl it true rpe).Pairwise
      (fun p q => p.2 < q.1 ∨ q.2 < p.1) ∧
    (get_sequence_exposure_numbers keyOf tl it true rpe).Pairwise
      (fun p q => ∀ r ∈ seqFilter tl it rpe, ∀ s ∈ seqFilter tl it rpe,
        r.exposure = p.1 → s.exposure = q.1 → keyOf r = keyOf s →
        p.1 < q.1) := by
  by_cases he : (seqFilter tl it rpe).isEmpty
  · have h0 : get_sequence_exposure_numbers keyOf tl it true rpe = [] := by
      unfold get_sequence_exposure_numbers
      rw [if_pos he]
    rw [h0]
    exact ⟨List.Pairwise.nil, List.Pairwise.nil⟩
  · have hout : get_sequence_exposure_numbers keyOf tl it true rpe =
        ((chunkBy (fun a b => keyOf a == keyOf b)
            (((seqFilter tl it rpe).insertionSort seqLe).insertionSort
              (keyLe keyOf))).flatMap
          (chunkBy (fun u v => decide (v.exposure - u.exposure ≤ 1)))).map
          (fun c => (headExposure c, lastExposure c)) := by
      unfold get_sequence_exposure_numbers
      rw [if_neg he, List.map_flatMap]
      rfl
    have hndF : ((seqFilter tl it rpe).map TimelineRow.exposure).Nodup :=
      List.Nodup.sublist ((List.filter_sublist tl).map _) hnd
    have hpermTS : List.Perm
        (((seqFilter tl it rpe).insertionSort seqLe).insertionSort
          (keyLe keyOf))
        ((seqFilter tl it rpe).insertionSort seqLe) :=
      List.perm_insertionSort _ _
    have hpermSF : List.Perm
        ((seqFilter tl it rpe).insertionSort seqLe) (seqFilter tl it rpe) :=
      List.perm_insertionSort _ _
    have hndT : ((((seqFilter tl it rpe).insertionSort
        seqLe).insertionSort (keyLe keyOf)).map
          TimelineRow.exposure).Nodup :=
      ((hpermTS.trans hpermSF).map TimelineRow.exposure).nodup_iff.mpr hndF
    have hTsort : (((seqFilter tl it rpe).insertionSort
        seqLe).insertionSort (keyLe keyOf)).Pairwise (keyLe keyOf) :=
      List.sorted_insertionSort _ _
    have hCCfl : (((chunkBy (fun a b => keyOf a == keyOf b)
        (((seqFilter tl it rpe).insertionSort seqLe).insertionSort
          (keyLe keyOf))).flatMap
        (chunkBy (fun u v => decide (v.exposure - u.exposure ≤ 1)))).flatten)
        = ((seqFilter tl it rpe).insertionSort seqLe).insertionSort
          (keyLe keyOf) := by
      rw [flatten_flatMap_chunkBy]
      exact (chunkBy_spec _ _).1
    have hcross : ((chunkBy (fun a b => keyOf a == keyOf b)
        (((seqFilter tl it rpe).insertionSort seqLe).insertionSort
          (keyLe keyOf))).flatMap
        (chunkBy (fun u v => decide (v.exposure - u.exposure ≤ 1)))).Pairwise
        (fun c c' => ∀ x ∈ c, ∀ y ∈ c', x.exposure ≠ y.exposure) := by
      have h0 : (((seqFilter tl it rpe).insertionSort
          seqLe).insertionSort (keyLe keyOf)).Pairwise
            (fun u v => u.exposure ≠ v.exposure) :=
        List.pairwise_map.mp hndT
      have h1 : (((chunkBy (fun a b => keyOf a == keyOf b)
          (((seqFilter tl it rpe).insertionSort seqLe).insertionSort
            (keyLe keyOf))).flatMap
          (chunkBy (fun u v =>
            decide (v.exposure - u.exposure ≤ 1)))).flatten).Pairwise
            (fun u v => u.exposure ≠ v.exposure) := by
        rw [hCCfl]
        exact h0
      exact (List.pairwise_flatten.mp h1).2
    rw [hout]
    constructor
    · rw [List.pairwise_map]
      refine hcross.imp_of_mem ?_
      intro c c' hcm hcm' hne_exp
      obtain ⟨grp, hgrp, hcc⟩ := List.mem_flatMap.mp hcm
      obtain ⟨grp', hgrp', hcc'⟩ := List.mem_flatMap.mp hcm'
      obtain ⟨hcne, hcmap, hclast, -⟩ :=
        chunk_facts keyOf tl it rpe hnd hgrp hcc
      obtain ⟨hcne', hcmap', hclast', -⟩ :=
        chunk_facts keyOf tl it rpe hnd hgrp' hcc'
      by_contra hcon
      push_neg at hcon
      obtain ⟨h1, h2⟩ := hcon
      have hlc : 0 < c.length := List.length_pos.mpr hcne
      have hlc' : 0 < c'.length := List.length_pos.mpr hcne'
      have hn1 : max (headExposure c) (headExposure c') ∈
          c.map TimelineRow.exposure := by
        rw [hcmap, List.mem_range'_1]
        omega
      have hn2 : max (headExposure c) (headExposure c') ∈
          c'.map TimelineRow.exposure := by
        rw [hcmap', List.mem_range'_1]
        omega
      obtain ⟨x, hx, hxe⟩ := List.mem_map.mp hn1
      obtain ⟨y, hy, hye⟩ := List.mem_map.mp hn2
      exact hne_exp x hx y hy (by rw [hxe, hye])
    · rw [List.pairwise_map]
      have hgf := group_key_facts keyOf
        (((seqFilter tl it rpe).insertionSort seqLe).insertionSort
          (keyLe keyOf)) hTsort
      have hCC2 : ((chunkBy (fun a b => keyOf a == keyOf b)
          (((seqFilter tl it rpe).insertionSort seqLe).insertionSort
            (keyLe keyOf))).flatMap
          (chunkBy (fun u v =>
            decide (v.exposure - u.exposure ≤ 1)))).Pairwise
          (fun c c' => (∀ u ∈ c, ∀ v ∈ c', keyOf u < keyOf v) ∨
            (headExposure c < headExposure c' ∧
              ∀ u ∈ c, ∀ v ∈ c', keyOf u = keyOf v)) := by
        rw [List.flatMap_def, List.pairwise_flatten]
        constructor
        · intro L hL
          obtain ⟨grp, hgrp, hLe⟩ := List.mem_map.mp hL
          subst hLe
          have hglt := grp_pairwise_lt keyOf tl it rpe hnd hgrp
          have hkeq_grp := hgf.1 grp hgrp
          have h3 : (chunkBy (fun u v =>
              decide (v.exposure - u.exposure ≤ 1)) grp).Pairwise
              (fun c c' => ∀ x ∈ c, ∀ y ∈ c', x.exposure < y.exposure) := by
            have h4 : ((chunkBy (fun u v =>
                decide (v.exposure - u.exposure ≤ 1)) grp).flatten).Pairwise
                (fun u v => u.exposure < v.exposure) := by
              rw [(chunkBy_spec _ _).1]
              exact hglt
            exact (List.pairwise_flatten.mp h4).2
          refine h3.imp_of_mem ?_
          intro c c' hcm hcm' hlt
          right
          have hc_ne := ((chunkBy_spec _ grp).2 c hcm).1
          have hc_ne' := ((chunkBy_spec _ grp).2 c' hcm').1
          have hcsub : c.Sublist grp := by
            have h0 := List.sublist_flatten_of_mem hcm
            rwa [(chunkBy_spec _ _).1] at h0
          have hcsub' : c'.Sublist grp := by
            have h0 := List.sublist_flatten_of_mem hcm'
            rwa [(chunkBy_spec _ _).1] at h0
          constructor
          · obtain ⟨hx, hxm, hxe⟩ := headExposure_mem c hc_ne
            obtain ⟨hy, hym, hye⟩ := headExposure_mem c' hc_ne'
            rw [← hxe, ← hye]
            exact hlt hx hxm hy hym
          · intro u hu v hv
            exact hkeq_grp u (hcsub.subset hu) v (hcsub'.subset hv)
        · rw [List.pairwise_map]
          refine hgf.2.imp_of_mem ?_
          intro g g' hgm hgm' hklt c hcL c' hcL'
          left
          intro u hu v hv
          have hug : u ∈ g := by
            have hsub : c.Sublist g := by
              have h0 := List.sublist_flatten_of_mem hcL
              rwa [(chunkBy_spec _ _).1] at h0
            exact hsub.subset hu
          have hvg : v ∈ g' := by
            have hsub : c'.Sublist g' := by
              have h0 := List.sublist_flatten_of_mem hcL'
              rwa [(chunkBy_spec _ _).1] at h0
            exact hsub.subset hv
          exact hklt u hug v hvg
      refine hCC2.imp_of_mem ?_
      intro c c' hcm hcm' hR r hrF s hsF hre hse hkeq
      obtain ⟨grp, hgrp, hcc⟩ := List.mem_flatMap.mp hcm
      obtain ⟨grp', hgrp', hcc'⟩ := List.mem_flatMap.mp hcm'
      obtain ⟨hcne, -, -, hcF⟩ := chunk_facts keyOf tl it rpe hnd hgrp hcc
      obtain ⟨hcne', -, -, hcF'⟩ :=
        chunk_facts keyOf tl it rpe hnd hgrp' hcc'
      obtain ⟨u, hum, hue⟩ := headExposure_mem c hcne
      obtain ⟨v, hvm, hve⟩ := headExposure_mem c' hcne'
      have hru : r = u :=
        List.inj_on_of_nodup_map hndF hrF (hcF u hum) (by rw [hre, ← hue])
      have hsv : s = v :=
        List.inj_on_of_nodup_map hndF hsF (hcF' v hvm) (by rw [hse, ← hve])
      cases hR with
      | inl h =>
        have hkuv : keyOf u = keyOf v := by
          rw [← hru, ← hsv]
          exact hkeq
        exact absurd hkuv (ne_of_lt (h u hum v hvm))
      | inr h => exact h.1

theorem sequence_contiguity_witness :
    (([⟨1, "Object", true, "a", "p", "c", "d"⟩,
       ⟨2, "Object", true, "a", "p", "c", "d"⟩] :
        List TimelineRow).map TimelineRow.exposure).Nodup ∧
    ((1, 2) ∈ get_sequence_exposure_numbers (fun r => r.fieldid.length)
      [⟨1, "Object", true, "a", "p", "c", "d"⟩,
       ⟨2, "Object", true, "a", "p", "c", "d"⟩] "Object" true true) ∧
    (∀ n, 1 ≤ n → n ≤ 2 → ∃ r ∈ seqFilter
      [⟨1, "Object", true, "a", "p", "c", "d"⟩,
       ⟨2, "Object", true, "a", "p", "c", "d"⟩] "Object" true,
        r.exposure = n) :=
  ⟨by decide, by decide,
    (sequence_contiguity (fun r => r.fieldid.length)
      [⟨1, "Object", true, "a", "p", "c", "d"⟩,
       ⟨2, "Object", true, "a", "p", "c", "d"⟩] "Object" true 1 2
      (by decide) (by decide)).1⟩

/-- C4 counterexample: the detected sequences of one call are not
strictly increasing in start exposure number, because astropy's
`group_by` re-sorts the filtered rows by the grouping key: with groups
keyed `"bb"` (exposures 1-2, key length 2) and `"a"` (exposures 3-4, key
length 1) the group with the smaller key comes out first, giving
`[(3, 4), (1, 2)]`. -/
theorem sequence_starts_not_monotone :
    (([⟨1, "Object", true, "bb", "p", "c", "d"⟩,
       ⟨2, "Object", true, "bb", "p", "c", "d"⟩,
       ⟨3, "Object", true, "a", "p", "c", "d"⟩,
       ⟨4, "Object", true, "a", "p", "c", "d"⟩] :
        List TimelineRow).map TimelineRow.exposure).Nodup ∧
    get_sequence_exposure_numbers (fun r => r.fieldid.length)
      [⟨1, "Object", true, "bb", "p", "c", "d"⟩,
       ⟨2, "Object", true, "bb", "p", "c", "d"⟩,
       ⟨3, "Object", true, "a", "p", "c", "d"⟩,
       ⟨4, "Object", true, "a", "p", "c", "d"⟩] "Object" true true =
      [(3, 4), (1, 2)] ∧
    ¬ (get_sequence_exposure_numbers (fun r => r.fieldid.length)
      [⟨1, "Object", true, "bb", "p", "c", "d"⟩,
       ⟨2, "Object", true, "bb", "p", "c", "d"⟩,
       ⟨3, "Object", true, "a", "p", "c", "d"⟩,
       ⟨4, "Object", true, "a", "p", "c", "d"⟩] "Object" true true).Pairwise
      (fun p q => p.1 < q.1) := by
  exact ⟨by decide, by decide, by decide⟩

theorem sequence_disjointness_witness :
    (([⟨1, "Object", true, "bb", "p", "c", "d"⟩,
       ⟨2, "Object", true, "bb", "p", "c", "d"⟩,
       ⟨4, "Object", true, "a", "p", "c", "d"⟩] :
        List TimelineRow).map TimelineRow.exposure).Nodup ∧
    (get_sequence_exposure_numbers (fun r => r.fieldid.length)
      [⟨1, "Object", true, "bb", "p", "c", "d"⟩,
       ⟨2, "Object", true, "bb", "p", "c", "d"⟩,
       ⟨4, "Object", true, "a", "p", "c", "d"⟩] "Object" true true).Pairwise
      (fun p q => p.2 < q.1 ∨ q.2 < p.1) :=
  ⟨by decide,
    (sequence_disjointness (fun r => r.fieldid.length)
      [⟨1, "Object", true, "bb", "p", "c", "d"⟩,
       ⟨2, "Object", true, "bb", "p", "c", "d"⟩,
       ⟨4, "Object", true, "a", "p", "c", "d"⟩] "Object" true
      (by decide)).1⟩
